import Mathlib

/-!
Tic-tac-toe over MQTT.

A shallow embedding of the two programs of the repository:

* `esp_ttt_game.c`, the game host (namespace `Host`): it owns the board, applies moves,
  detects wins and draws and publishes the state and the result;
* `c_player.c`, the player agent (namespace `Agent`): it listens to the state and result
  topics and answers a new state with a random move for player X.

C strings are lists of characters (the bytes before the terminating NUL).  Global variables
become the fields of a state record, and every function that publishes returns the list of
messages it published, in order.  Output on the serial console and on stdout is not modelled.
-/

/-- A message handed to the MQTT client: the topic and the payload. -/
structure Msg where
  topic : List Char
  payload : List Char
deriving DecidableEq, Repr

/-- The byte that terminates a C string. -/
def NUL : Char := Char.ofNat 0

/-- The C string held in a character buffer: the bytes before the first NUL. -/
def cstr (buf : List Char) : List Char :=
  buf.takeWhile (fun c => c != NUL)

/-- The value a 32-bit `int` holds when an arithmetic result is `n`: `n` brought into
`[-2^31, 2^31)` modulo `2^32` (two's complement; a signed overflow wraps on the target). -/
def wrapInt32 (n : Int) : Int :=
  (n + 2147483648) % 4294967296 - 2147483648

/-- The eight lines of the 3x3 board, as triples of cell indices: rows, columns, diagonals. -/
def winLines : List (Fin 9 × Fin 9 × Fin 9) :=
  [(0, 1, 2), (3, 4, 5), (6, 7, 8), (0, 3, 6), (1, 4, 7), (2, 5, 8), (0, 4, 8), (2, 4, 6)]

/-- A line is complete on a board when its three cells are equal and not the space. -/
def lineComplete (board : Fin 9 → Char) (l : Fin 9 × Fin 9 × Fin 9) : Prop :=
  board l.1 ≠ ' ' ∧ board l.1 = board l.2.1 ∧ board l.2.1 = board l.2.2

instance (board : Fin 9 → Char) (l : Fin 9 × Fin 9 × Fin 9) :
    Decidable (lineComplete board l) :=
  inferInstanceAs (Decidable (_ ∧ _))

/-- Number of cells of a board that hold the character `c`. -/
def countMark (board : Fin 9 → Char) (c : Char) : Nat :=
  (List.ofFn board).count c

/-! ## The host, `esp_ttt_game.c` -/

/-- The global variables of the host: `board`, `currentPlayer`, `gameOver`, `gameMode`, and
the static local `lastAIMoveTime` of `loop` (an `unsigned long`, 32 bits on the ESP32). -/
structure Host where
  board : Fin 9 → Char
  currentPlayer : Char
  gameOver : Bool
  gameMode : Int
  lastAIMoveTime : Nat

namespace Host

def mqtt_topic_command : List Char := "tictactoe/command".toList
def mqtt_topic_state : List Char := "tictactoe/state".toList
def mqtt_topic_result : List Char := "tictactoe/result".toList

/-- The values of the globals at program start, before `setup` runs: `board` is
zero-initialised, `currentPlayer = 'X'`, `gameOver = false`, `gameMode = 0`. -/
def startup : Host :=
  { board := fun _ => NUL, currentPlayer := 'X', gameOver := false, gameMode := 0,
    lastAIMoveTime := 0 }

/-- Embeds `initBoard` (lines 107-116): every cell becomes a space, X is to move and the
game is in progress. -/
def initBoard (s : Host) : Host :=
  { s with board := fun _ => ' ', currentPlayer := 'X', gameOver := false }

/-- The text `sendGameState` builds in `state` (lines 317-327): the board is copied to
`boardStr`, then `sprintf(state, "STATE:%s%c", boardStr, currentPlayer)`. -/
def stateString (board : Fin 9 → Char) (currentPlayer : Char) : List Char :=
  let boardStr := cstr (List.ofFn board)
  cstr ("STATE:".toList ++ boardStr ++ [currentPlayer])

/-- Embeds `sendGameState` (lines 315-334): the message published on the state topic. -/
def sendGameState (s : Host) : Msg :=
  { topic := mqtt_topic_state, payload := stateString s.board s.currentPlayer }

/-- One iteration of the row loop of `checkWin` (lines 349-359). -/
def rowWin (board : Fin 9 → Char) (i : Fin 3) : Bool :=
  let rowStart := i.val * 3
  board ⟨rowStart, by omega⟩ != ' ' &&
    board ⟨rowStart, by omega⟩ == board ⟨rowStart + 1, by omega⟩ &&
    board ⟨rowStart + 1, by omega⟩ == board ⟨rowStart + 2, by omega⟩

/-- One iteration of the column loop of `checkWin` (lines 362-371). -/
def colWin (board : Fin 9 → Char) (i : Fin 3) : Bool :=
  board ⟨i.val, by omega⟩ != ' ' &&
    board ⟨i.val, by omega⟩ == board ⟨i.val + 3, by omega⟩ &&
    board ⟨i.val + 3, by omega⟩ == board ⟨i.val + 6, by omega⟩

/-- Embeds `checkWin` (lines 337-392): the three rows, then the three columns, then the
two diagonals; the first complete line returns true. -/
def checkWin (board : Fin 9 → Char) : Bool :=
  if (List.finRange 3).any (rowWin board) then true
  else if (List.finRange 3).any (colWin board) then true
  else if board 0 != ' ' && board 0 == board 4 && board 4 == board 8 then true
  else if board 2 != ' ' && board 2 == board 4 && board 4 == board 6 then true
  else false

/-- The index of line 218, `int index = row * 3 + col`, in 32-bit `int` arithmetic: the
product and the sum each wrap. -/
def cellIndex (row col : Int) : Int :=
  wrapInt32 (wrapInt32 (row * 3) + col)

/-- Embeds `isBoardFull` (lines 394-401): false as soon as a cell holds a space. -/
def isBoardFull (board : Fin 9 → Char) : Bool :=
  (List.finRange 9).all (fun i => board i != ' ')

/-- Embeds `makeMove` (lines 217-277).  `row` and `col` are C `int`s of 32 bits, and so
is the index `row * 3 + col`. -/
def makeMove (s : Host) (row col : Int) : Host × List Msg :=
  let index := cellIndex row col
  if h : index < 0 ∨ index ≥ 9 then (s, [])
  else
    let i : Fin 9 := ⟨index.toNat, by omega⟩
    if s.board i ≠ ' ' then (s, [])
    else if s.gameOver then (s, [])
    else
      let s1 := { s with board := Function.update s.board i s.currentPlayer }
      if checkWin s1.board then
        let s2 := { s1 with gameOver := true }
        let result := cstr ("WIN:".toList ++ [s2.currentPlayer])
        (s2, [{ topic := mqtt_topic_result, payload := result }, sendGameState s2])
      else if isBoardFull s1.board then
        let s2 := { s1 with gameOver := true }
        (s2, [{ topic := mqtt_topic_result, payload := "DRAW".toList }, sendGameState s2])
      else
        let s2 := { s1 with currentPlayer := if s1.currentPlayer = 'X' then 'O' else 'X' }
        (s2, [sendGameState s2])

/-- Embeds `makeRandomMove` (lines 279-313).  `rnd` is the draw of the random number
generator; `random(count)` returns a value in `[0, count)`, here `rnd % count`. -/
def makeRandomMove (s : Host) (rnd : Nat) : Host × List Msg :=
  if s.gameOver then (s, [])
  else if (s.gameMode = 2 ∧ s.currentPlayer ≠ 'O') ∨
      (s.gameMode = 3 ∧ ¬(s.currentPlayer = 'X' ∨ s.currentPlayer = 'O')) then (s, [])
  else
    let emptyCells := (List.finRange 9).filter (fun i => s.board i = ' ')
    let count := emptyCells.length
    if h : count > 0 then
      let randomIndex := rnd % count
      let cellIndex := emptyCells.get ⟨randomIndex, Nat.mod_lt rnd h⟩
      let row : Int := (cellIndex.val : Int) / 3
      let col : Int := (cellIndex.val : Int) % 3
      makeMove s row col
    else (s, [])

/-- Embeds `processCommand` (lines 151-215).  `sscanf` stands for the library call
`sscanf(cmd + 5, "%d,%d", &row, &col)`: it is given the text after the first five
characters and returns the two integers when the call returns 2. -/
def processCommand (sscanf : List Char → Option (Int × Int)) (s : Host) (cmd : List Char) :
    Host × List Msg :=
  if cmd.take 5 = "RESET".toList then
    let s1 := initBoard s
    (s1, [{ topic := mqtt_topic_result, payload := [] }, sendGameState s1])
  else if cmd.take 5 = "MODE:".toList then
    let newMode : Int := ((cmd.getD 5 NUL).toNat : Int) - (('0').toNat : Int)
    if newMode ≥ 1 ∧ newMode ≤ 3 then
      let s1 := initBoard { s with gameMode := newMode }
      (s1, [{ topic := mqtt_topic_result, payload := [] }, sendGameState s1])
    else (s, [])
  else if cmd.take 5 = "MOVE:".toList then
    match sscanf (cmd.drop 5) with
    | some (row, col) =>
      if row ≥ 0 ∧ row < 3 ∧ col ≥ 0 ∧ col < 3 then makeMove s row col
      else (s, [])
    | none => (s, [])
  else (s, [])

/-- Embeds `mqtt_callback` (lines 136-149): the payload bytes are copied, terminated by a
NUL and handed to `processCommand` as a C string. -/
def mqtt_callback (sscanf : List Char → Option (Int × Int)) (s : Host) (payload : List Char) :
    Host × List Msg :=
  processCommand sscanf s (cstr payload)

/-- Embeds the autonomous-move part of `loop` (lines 92-102).  `millis` is the value
returned by `millis()`; the subtraction is that of 32-bit `unsigned long`. -/
def loop (s : Host) (millis rnd : Nat) : Host × List Msg :=
  let currentTime := millis % 2 ^ 32
  if !s.gameOver && decide ((currentTime + 2 ^ 32 - s.lastAIMoveTime % 2 ^ 32) % 2 ^ 32 > 3000) then
    if (s.gameMode = 2 ∧ s.currentPlayer = 'O') ∨ s.gameMode = 3 then
      makeRandomMove { s with lastAIMoveTime := currentTime } rnd
    else (s, [])
  else (s, [])

/-- The host states that can arise: `setup` runs `initBoard` on the start-up globals, and
afterwards each step is a command (from MQTT or the serial line, with any outcome of the
`sscanf` call) or a pass through the autonomous-move part of `loop`. -/
inductive Reachable : Host → Prop
  | setup : Reachable (initBoard startup)
  | command (sscanf : List Char → Option (Int × Int)) (cmd : List Char) (s : Host) :
      Reachable s → Reachable (processCommand sscanf s cmd).1
  | tick (millis rnd : Nat) (s : Host) : Reachable s → Reachable (loop s millis rnd).1

end Host

/-! ## The player agent, `c_player.c` -/

/-- The global variables of the agent.  `last_board_state` is the C string held in the
buffer `char last_board_state[20]`. -/
structure Agent where
  board : Fin 9 → Char
  current_player : Char
  last_move_time : Int
  game_active : Int
  last_board_state : List Char

namespace Agent

def TOPIC_CMD : List Char := "tictactoe/command".toList
def TOPIC_STATE : List Char := "tictactoe/state".toList
def TOPIC_RESULT : List Char := "tictactoe/result".toList

/-- Size in bytes of the buffer `last_board_state` (line 22). -/
def LAST_BOARD_STATE_SIZE : Nat := 20

/-- Delay between moves in seconds. -/
def MOVE_DELAY : Int := 3

/-- The values of the globals once `main` has initialised them (lines 18-22, 163-168). -/
def startup : Agent :=
  { board := fun _ => ' ', current_player := 'X', last_move_time := 0, game_active := 1,
    last_board_state := [] }

/-- Embeds `make_move` (lines 74-101).  `current_time` is the value of `time(NULL)` and
`rand` the value of `rand()`; `%d` prints the decimal digits of `row` and `col`. -/
def make_move (a : Agent) (current_time : Int) (rand : Nat) : Agent × List Msg :=
  if a.current_player ≠ 'X' ∨ a.game_active = 0 then (a, [])
  else if current_time - a.last_move_time < MOVE_DELAY then (a, [])
  else
    let empty_spots := (List.finRange 9).filter (fun i => a.board i = ' ')
    let count := empty_spots.length
    if h : count = 0 then (a, [])
    else
      let idx := empty_spots.get ⟨rand % count, Nat.mod_lt rand (Nat.pos_of_ne_zero h)⟩
      let row := idx.val / 3
      let col := idx.val % 3
      let move_message := "MOVE:".toList ++ Nat.toDigits 10 row ++ [','] ++ Nat.toDigits 10 col
      ({ a with last_move_time := current_time },
        [{ topic := TOPIC_CMD, payload := move_message }])

/-- The test of line 108: `strncmp(payload, "STATE:", 6) == 0 && strlen(payload) >= 16`. -/
def validState (payload : List Char) : Bool :=
  payload.take 6 == "STATE:".toList && decide (payload.length ≥ 16)

/-- The board read from a state payload (lines 113-115): `board[i] = payload[6 + i]`. -/
def parseBoard (payload : List Char) : Fin 9 → Char :=
  fun i => payload.getD (6 + i.val) NUL

/-- The turn read from a state payload (line 116): `current_player = payload[15]`. -/
def parseTurn (payload : List Char) : Char :=
  payload.getD 15 NUL

/-- The condition under which `on_message` reaches its call of `make_move` (line 121): a
payload is present, the topic is the state topic, the payload passes the test of line 108
and differs from `last_board_state`. -/
def callsMakeMove (a : Agent) (topic : List Char) (payload : Option (List Char)) : Bool :=
  match payload with
  | none => false
  | some p => topic == TOPIC_STATE && validState p && p != a.last_board_state

/-- Embeds `on_message` (lines 104-132).  `payload` is `none` for a null `msg->payload`
and otherwise the payload read as a C string; `current_time` and `rand` are what
`make_move` reads from `time(NULL)` and `rand()` if it is called (the `sleep(1)` before
the call only delays it).  The result is `none` when the `strcpy` of line 111 is given a
payload that, with its terminating NUL, does not fit the buffer `last_board_state`: it
writes past the buffer and the behaviour of the program is undefined. -/
def on_message (a : Agent) (topic : List Char) (payload : Option (List Char))
    (current_time : Int) (rand : Nat) : Option (Agent × List Msg) :=
  match payload with
  | none => some (a, [])
  | some payload =>
    if topic = TOPIC_STATE then
      if validState payload then
        if payload ≠ a.last_board_state then
          if payload.length + 1 ≤ LAST_BOARD_STATE_SIZE then
            let a1 := { a with
              last_board_state := payload
              board := parseBoard payload
              current_player := parseTurn payload }
            some (make_move a1 current_time rand)
          else none
        else some (a, [])
      else some (a, [])
    else if topic = TOPIC_RESULT then
      if payload.take 4 = "WIN:".toList ∨ payload = "DRAW".toList then
        some ({ a with game_active := 0 }, [])
      else some (a, [])
    else some (a, [])

end Agent

/-! ## The invariant of the reachable host states -/

/-- Invariant of the host used for the reachable states: every cell is a space, an X or
an O; the player to move is X or O; and the marks are balanced with respect to the turn
(while the game runs X moves on equal counts and O moves with one more X; once the game is
over the turn is the player who moved last). -/
def Host.markInv (s : Host) : Prop :=
  (∀ i, s.board i = ' ' ∨ s.board i = 'X' ∨ s.board i = 'O') ∧
  ((s.currentPlayer = 'X' ∧
      countMark s.board 'X' = countMark s.board 'O' + (if s.gameOver then 1 else 0)) ∨
    (s.currentPlayer = 'O' ∧
      countMark s.board 'X' + (if s.gameOver then 1 else 0) = countMark s.board 'O' + 1))

/-- Second invariant of the reachable host states: the game-over flag is set exactly when
`checkWin` or `isBoardFull` holds of the board. -/
def Host.agreeInv (s : Host) : Prop :=
  s.gameOver = true ↔ (Host.checkWin s.board = true ∨ Host.isBoardFull s.board = true)

/-! ## Concrete states used to instantiate the theorems -/

/-- A host state given by the nine characters of its board, the player to move, the
game-over flag and the mode. -/
def Host.ofCells (cells : List Char) (turn : Char) (over : Bool) (mode : Int) : Host :=
  { board := fun i => cells.getD i.val ' ', currentPlayer := turn, gameOver := over,
    gameMode := mode, lastAIMoveTime := 0 }

/-- The host right after `setup`: empty board, X to move. -/
def Host.fresh : Host := Host.initBoard Host.startup

/-- Scenario 4 of the specification: cell 0 already holds an O. -/
def Host.occupied : Host := Host.ofCells "O        ".toList 'X' false 1

/-- Scenario 3 of the specification, one move before the end: only cell 8 is free and O is
to move; filling it completes no line. -/
def Host.lastCell : Host := Host.ofCells "XOXOXOOX ".toList 'O' false 1

/-- Scenario 2 of the specification, one move before the end: X is to move and completes
the top row by playing cell 2. -/
def Host.topRow : Host := Host.ofCells "XX OO    ".toList 'X' false 1

/-- An agent that has seen the final state of a game X won (`XXXOO    `, turn X) and made
its last move at time 50. -/
def Agent.afterGame : Agent :=
  { board := fun i => "XXXOO    ".toList.getD i.val ' ', current_player := 'X',
    last_move_time := 50, game_active := 1, last_board_state := "STATE:XXXOO    X".toList }

/-- The free cells of a board in board order: the indices both `makeRandomMove` (lines
295-299) and `make_move` (lines 83-87) collect. -/
def emptyCells (board : Fin 9 → Char) : List (Fin 9) :=
  (List.finRange 9).filter (fun i => board i = ' ')

/-- Scenario 6 of the specification: mode 2 (the host plays O), X has played cell 0 and O
is to move. -/
def Host.aiTurnO : Host := Host.ofCells "X        ".toList 'O' false 2

/-- Scenario 6 of the specification: mode 2 (the host plays O) on the fresh board, X to
move. -/
def Host.aiTurnX : Host := Host.ofCells "         ".toList 'X' false 2

/-- The host state after the command `MOVE:row,col`, for an `sscanf` that reads these two
numbers. -/
def Host.afterMove (s : Host) (row col : Int) : Host :=
  (Host.processCommand (fun _ => some (row, col)) s "MOVE:".toList).1

/-- A game in progress reached from the fresh board by X (0,0), O (1,0), X (0,1), O (1,1):
the board is `XX OO    ` and X is to move. -/
def Host.beforeWin : Host :=
  Host.afterMove (Host.afterMove (Host.afterMove (Host.afterMove Host.fresh 0 0) 1 0) 0 1) 1 1

/-! ## Lemmas about the host -/

/-- The loop indices 0, 1, 2 of the row and column loops. -/
theorem finRange3 : List.finRange 3 = [0, 1, 2] := by decide

/-- The row test of `checkWin` for row `i` is the completeness of the line of cells
`3i, 3i+1, 3i+2`. -/
theorem rowWin_iff (board : Fin 9 → Char) (i : Fin 3) :
    Host.rowWin board i = true ↔
      lineComplete board
        (⟨i.val * 3, by omega⟩, ⟨i.val * 3 + 1, by omega⟩, ⟨i.val * 3 + 2, by omega⟩) := by
  simp [Host.rowWin, lineComplete, and_assoc]

/-- The column test of `checkWin` for column `i` is the completeness of the line of cells
`i, i+3, i+6`. -/
theorem colWin_iff (board : Fin 9 → Char) (i : Fin 3) :
    Host.colWin board i = true ↔
      lineComplete board (⟨i.val, by omega⟩, ⟨i.val + 3, by omega⟩, ⟨i.val + 6, by omega⟩) := by
  simp [Host.colWin, lineComplete, and_assoc]

/-- `checkWin` holds exactly when one of the eight lines is complete. -/
theorem checkWin_iff (board : Fin 9 → Char) :
    Host.checkWin board = true ↔ ∃ l ∈ winLines, lineComplete board l := by
  have hd1 : (board 0 != ' ' && board 0 == board 4 && board 4 == board 8) = true ↔
      lineComplete board (0, 4, 8) := by simp [lineComplete, and_assoc]
  have hd2 : (board 2 != ' ' && board 2 == board 4 && board 4 == board 6) = true ↔
      lineComplete board (2, 4, 6) := by simp [lineComplete, and_assoc]
  simp only [Host.checkWin, finRange3, winLines, List.any_cons, List.any_nil, List.mem_cons,
    List.mem_singleton, exists_eq_or_imp, exists_eq_left, List.not_mem_nil, false_and,
    exists_false, or_false, Bool.or_false, Bool.or_eq_true, rowWin_iff, colWin_iff, hd1, hd2,
    ite_eq_left_iff, Bool.if_true_left, Bool.if_false_right, Bool.and_true, Bool.decide_eq_true, 
    Bool.decide_or, decide_eq_true_eq]
  simp only [or_assoc]
  exact Iff.rfl

/-- `isBoardFull` holds exactly when no cell is a space. -/
theorem isBoardFull_iff (board : Fin 9 → Char) :
    Host.isBoardFull board = true ↔ ∀ i, board i ≠ ' ' := by
  simp [Host.isBoardFull]

/-- A value in the range of a 32-bit `int` is not changed by wrapping. -/
theorem wrapInt32_of_range (n : Int) (h1 : -2147483648 ≤ n) (h2 : n ≤ 2147483647) :
    wrapInt32 n = n := by
  unfold wrapInt32
  omega

/-- The 32-bit index is the exact index whenever the exact index fits 32 bits. -/
theorem cellIndex_of_range (row col : Int) (h1 : -2147483648 ≤ row * 3 + col)
    (h2 : row * 3 + col ≤ 2147483647) : Host.cellIndex row col = row * 3 + col := by
  unfold Host.cellIndex wrapInt32
  omega

/-- The three early returns of `makeMove`, in terms of the 32-bit index: nothing changes
and nothing is published. -/
theorem makeMove_reject (s : Host) (row col : Int)
    (h : (Host.cellIndex row col < 0 ∨ 9 ≤ Host.cellIndex row col) ∨
      (∃ i : Fin 9, (i.val : Int) = Host.cellIndex row col ∧ s.board i ≠ ' ') ∨
      s.gameOver = true) :
    Host.makeMove s row col = (s, []) := by
  unfold Host.makeMove
  by_cases hidx : Host.cellIndex row col < 0 ∨ Host.cellIndex row col ≥ 9
  · simp only [dif_pos hidx]
  · simp only [dif_neg hidx]
    rcases h with h | ⟨i, hi, hcell⟩ | hgo
    · exact absurd h hidx
    · have hfin : (⟨(Host.cellIndex row col).toNat, by omega⟩ : Fin 9) = i := by
        apply Fin.ext
        simp only
        omega
      rw [hfin, if_pos hcell]
    · simp only [hgo, if_true, ite_self]

/-- The early returns of `makeMove` for an exact index that fits 32 bits. -/
theorem makeMove_reject_exact (s : Host) (row col : Int)
    (h1 : -2147483648 ≤ row * 3 + col) (h2 : row * 3 + col ≤ 2147483647)
    (h : (row * 3 + col < 0 ∨ 9 ≤ row * 3 + col) ∨
      (∃ i : Fin 9, (i.val : Int) = row * 3 + col ∧ s.board i ≠ ' ') ∨ s.gameOver = true) :
    Host.makeMove s row col = (s, []) := by
  apply makeMove_reject
  rw [cellIndex_of_range row col h1 h2]
  exact h

/-- The body of `makeMove` past its three early returns, for the cell `i` that the 32-bit
index designates. -/
theorem makeMove_accept_at (s : Host) (row col : Int) (i : Fin 9)
    (hi : (i.val : Int) = Host.cellIndex row col) (hcell : s.board i = ' ')
    (hgo : s.gameOver = false) :
    Host.makeMove s row col =
      if Host.checkWin (Function.update s.board i s.currentPlayer) then
        ({ s with board := Function.update s.board i s.currentPlayer, gameOver := true },
          [{ topic := Host.mqtt_topic_result, payload := cstr ("WIN:".toList ++ [s.currentPlayer]) },
           Host.sendGameState
            { s with board := Function.update s.board i s.currentPlayer, gameOver := true }])
      else if Host.isBoardFull (Function.update s.board i s.currentPlayer) then
        ({ s with board := Function.update s.board i s.currentPlayer, gameOver := true },
          [{ topic := Host.mqtt_topic_result, payload := "DRAW".toList },
           Host.sendGameState
            { s with board := Function.update s.board i s.currentPlayer, gameOver := true }])
      else
        ({ s with board := Function.update s.board i s.currentPlayer,
                  currentPlayer := if s.currentPlayer = 'X' then 'O' else 'X' },
          [Host.sendGameState
            { s with board := Function.update s.board i s.currentPlayer,
                     currentPlayer := if s.currentPlayer = 'X' then 'O' else 'X' }]) := by
  have hlt := i.isLt
  have hidx : ¬ (Host.cellIndex row col < 0 ∨ Host.cellIndex row col ≥ 9) := by
    omega
  have hfin : (⟨(Host.cellIndex row col).toNat, by omega⟩ : Fin 9) = i := by
    apply Fin.ext
    simp only
    omega
  unfold Host.makeMove
  simp only [dif_neg hidx, hfin, hcell, hgo, ne_eq, not_true_eq_false, if_false,
    Bool.false_eq_true]

/-- The body of `makeMove` past its three early returns, for the cell `i = row * 3 + col`. -/
theorem makeMove_accept (s : Host) (row col : Int) (i : Fin 9)
    (hi : (i.val : Int) = row * 3 + col) (hcell : s.board i = ' ') (hgo : s.gameOver = false) :
    Host.makeMove s row col =
      if Host.checkWin (Function.update s.board i s.currentPlayer) then
        ({ s with board := Function.update s.board i s.currentPlayer, gameOver := true },
          [{ topic := Host.mqtt_topic_result, payload := cstr ("WIN:".toList ++ [s.currentPlayer]) },
           Host.sendGameState
            { s with board := Function.update s.board i s.currentPlayer, gameOver := true }])
      else if Host.isBoardFull (Function.update s.board i s.currentPlayer) then
        ({ s with board := Function.update s.board i s.currentPlayer, gameOver := true },
          [{ topic := Host.mqtt_topic_result, payload := "DRAW".toList },
           Host.sendGameState
            { s with board := Function.update s.board i s.currentPlayer, gameOver := true }])
      else
        ({ s with board := Function.update s.board i s.currentPlayer,
                  currentPlayer := if s.currentPlayer = 'X' then 'O' else 'X' },
          [Host.sendGameState
            { s with board := Function.update s.board i s.currentPlayer,
                     currentPlayer := if s.currentPlayer = 'X' then 'O' else 'X' }]) := by
  have hlt := i.isLt
  have hwrap : Host.cellIndex row col = row * 3 + col :=
    cellIndex_of_range row col (by omega) (by omega)
  exact makeMove_accept_at s row col i (hi.trans hwrap.symm) hcell hgo

/-- The MOVE branch of `processCommand`. -/
theorem processCommand_move (sscanf : List Char → Option (Int × Int)) (s : Host)
    (cmd : List Char) (row col : Int) (hcmd : cmd.take 5 = "MOVE:".toList)
    (hscan : sscanf (cmd.drop 5) = some (row, col)) :
    Host.processCommand sscanf s cmd =
      if row ≥ 0 ∧ row < 3 ∧ col ≥ 0 ∧ col < 3 then Host.makeMove s row col else (s, []) := by
  have h1 : ¬ cmd.take 5 = "RESET".toList := by rw [hcmd]; decide
  have h2 : ¬ cmd.take 5 = "MODE:".toList := by rw [hcmd]; decide
  unfold Host.processCommand
  simp only [if_neg h1, if_neg h2, if_pos hcmd, hscan]

/-- A buffer without NUL is its own C string. -/
theorem cstr_eq_self (l : List Char) (h : ∀ c ∈ l, c ≠ NUL) : cstr l = l := by
  unfold cstr
  rw [List.takeWhile_eq_self_iff]
  intro c hc
  simpa using h c hc

/-- Writing one cell of the board writes one position of its list of cells. -/
theorem ofFn_update (board : Fin 9 → Char) (i : Fin 9) (m : Char) :
    List.ofFn (Function.update board i m) = (List.ofFn board).set i.val m := by
  apply List.ext_getElem
  · simp
  · intro n h1 h2
    simp only [List.getElem_ofFn, List.getElem_set, Function.update_apply, Fin.ext_iff]
    by_cases h : n = i.val
    · simp [h]
    · have h' : ¬ i.val = n := fun e => h e.symm
      simp [h, h']

/-- Writing `m` into a free cell adds one to the count of `m` and leaves the count of any
other mark unchanged. -/
theorem countMark_update (board : Fin 9 → Char) (i : Fin 9) (m c : Char)
    (hcell : board i = ' ') (hc : c ≠ ' ') :
    countMark (Function.update board i m) c = countMark board c + (if m = c then 1 else 0) := by
  have hlen : i.val < (List.ofFn board).length := by simp
  have hget : (List.ofFn board)[i.val] = ' ' := by
    rw [List.getElem_ofFn]
    exact hcell
  have hc' : ¬ ' ' = c := fun e => hc e.symm
  unfold countMark
  rw [ofFn_update, List.count_set _ _ _ _ hlen, hget]
  simp [hc']

/-- `initBoard` establishes the invariant. -/
theorem markInv_initBoard (s : Host) : Host.markInv (Host.initBoard s) := by
  refine ⟨fun i => Or.inl rfl, Or.inl ⟨rfl, ?_⟩⟩
  show countMark (fun _ => ' ') 'X' =
    countMark (fun _ => ' ') 'O' + (if false = true then 1 else 0)
  decide

/-- `makeMove` preserves the invariant. -/
theorem markInv_makeMove (s : Host) (row col : Int) (h : Host.markInv s) :
    Host.markInv (Host.makeMove s row col).1 := by
  by_cases hidx : Host.cellIndex row col < 0 ∨ 9 ≤ Host.cellIndex row col
  · rw [makeMove_reject s row col (Or.inl hidx)]
    exact h
  · have hlt : (Host.cellIndex row col).toNat < 9 := by omega
    have hi : (((⟨(Host.cellIndex row col).toNat, hlt⟩ : Fin 9).val : Nat) : Int) =
        Host.cellIndex row col := by
      simp only
      omega
    generalize (⟨(Host.cellIndex row col).toNat, hlt⟩ : Fin 9) = i at hi
    by_cases hcell : s.board i = ' '
    · cases hgo : s.gameOver
      · obtain ⟨hcells, hbal⟩ := h
        have hX := countMark_update s.board i s.currentPlayer 'X' hcell (by decide)
        have hO := countMark_update s.board i s.currentPlayer 'O' hcell (by decide)
        have hcells' : ∀ j, Function.update s.board i s.currentPlayer j = ' ' ∨
            Function.update s.board i s.currentPlayer j = 'X' ∨
            Function.update s.board i s.currentPlayer j = 'O' := by
          intro j
          by_cases hj : j = i
          · subst hj
            rw [Function.update_same]
            rcases hbal with ⟨ht, _⟩ | ⟨ht, _⟩
            · exact Or.inr (Or.inl ht)
            · exact Or.inr (Or.inr ht)
          · rw [Function.update_noteq hj]
            exact hcells j
        rw [makeMove_accept_at s row col i hi hcell hgo]
        rw [hgo] at hbal
        rcases hbal with ⟨ht, hb⟩ | ⟨ht, hb⟩
        · rw [ht] at hX hO hcells' ⊢
          simp only [if_true, if_neg (show ¬ 'X' = 'O' by decide)] at hX hO
          simp only [Bool.false_eq_true, if_false] at hb
          split
          · exact ⟨hcells', Or.inl ⟨rfl, by simp only [if_true]; omega⟩⟩
          · split
            · exact ⟨hcells', Or.inl ⟨rfl, by simp only [if_true]; omega⟩⟩
            · refine ⟨hcells', Or.inr ⟨rfl, ?_⟩⟩
              simp only [hgo, Bool.false_eq_true, if_false]
              omega
        · rw [ht] at hX hO hcells' ⊢
          simp only [if_true, if_neg (show ¬ 'O' = 'X' by decide)] at hX hO
          simp only [Bool.false_eq_true, if_false] at hb
          split
          · exact ⟨hcells', Or.inr ⟨rfl, by simp only [if_true]; omega⟩⟩
          · split
            · exact ⟨hcells', Or.inr ⟨rfl, by simp only [if_true]; omega⟩⟩
            · refine ⟨hcells', Or.inl ⟨rfl, ?_⟩⟩
              simp only [hgo, Bool.false_eq_true, if_false]
              omega
      · rw [makeMove_reject s row col (Or.inr (Or.inr hgo))]
        exact h
    · rw [makeMove_reject s row col (Or.inr (Or.inl ⟨i, hi, hcell⟩))]
      exact h

/-- `makeRandomMove` preserves the invariant. -/
theorem markInv_makeRandomMove (s : Host) (rnd : Nat) (h : Host.markInv s) :
    Host.markInv (Host.makeRandomMove s rnd).1 := by
  simp only [Host.makeRandomMove]
  split
  · exact h
  · split
    · exact h
    · split
      · exact markInv_makeMove s _ _ h
      · exact h

/-- `processCommand` preserves the invariant. -/
theorem markInv_processCommand (sscanf : List Char → Option (Int × Int)) (s : Host)
    (cmd : List Char) (h : Host.markInv s) :
    Host.markInv (Host.processCommand sscanf s cmd).1 := by
  simp only [Host.processCommand]
  split
  · exact markInv_initBoard s
  · split
    · split
      · exact markInv_initBoard _
      · exact h
    · split
      · split
        · split
          · exact markInv_makeMove s _ _ h
          · exact h
        · exact h
      · exact h

/-- The autonomous-move part of `loop` preserves the invariant. -/
theorem markInv_loop (s : Host) (millis rnd : Nat) (h : Host.markInv s) :
    Host.markInv (Host.loop s millis rnd).1 := by
  simp only [Host.loop]
  split
  · split
    · exact markInv_makeRandomMove _ rnd h
    · exact h
  · exact h

/-- Every reachable host state satisfies the invariant. -/
theorem reachable_markInv (s : Host) (h : Host.Reachable s) : Host.markInv s := by
  induction h with
  | setup => exact markInv_initBoard _
  | command sscanf cmd s _ ih => exact markInv_processCommand sscanf s cmd ih
  | tick millis rnd s _ ih => exact markInv_loop s millis rnd ih

/-- A space, an X and an O are not NUL. -/
theorem NUL_ne_mark (c : Char) (h : c = ' ' ∨ c = 'X' ∨ c = 'O') : c ≠ NUL := by
  rcases h with h | h | h <;> rw [h] <;> decide

/-- Without NUL in the board or the turn, the state text is `STATE:`, the nine cells, the turn. -/
theorem stateString_eq (board : Fin 9 → Char) (turn : Char)
    (hb : ∀ i, board i ≠ NUL) (ht : turn ≠ NUL) :
    Host.stateString board turn = "STATE:".toList ++ List.ofFn board ++ [turn] := by
  have h1 : cstr (List.ofFn board) = List.ofFn board := by
    apply cstr_eq_self
    intro c hc
    rw [List.mem_ofFn] at hc
    obtain ⟨i, rfl⟩ := hc
    exact hb i
  unfold Host.stateString
  simp only [h1]
  apply cstr_eq_self
  intro c hc
  simp only [List.mem_append, List.mem_singleton] at hc
  rcases hc with (hc | hc) | hc
  · simp only [String.toList, List.mem_cons, List.not_mem_nil, or_false] at hc
    rcases hc with h | h | h | h | h | h <;> rw [h] <;> decide
  · rw [List.mem_ofFn] at hc
    obtain ⟨i, rfl⟩ := hc
    exact hb i
  · rw [hc]
    exact ht

/-! ## Lemmas about the agent -/

/-- The agent reads the board and the turn back from the state text. -/
theorem parse_stateString (board : Fin 9 → Char) (turn : Char) :
    Agent.parseBoard ("STATE:".toList ++ List.ofFn board ++ [turn]) = board ∧
    Agent.parseTurn ("STATE:".toList ++ List.ofFn board ++ [turn]) = turn := by
  constructor
  · funext i
    fin_cases i <;> rfl
  · rfl

/-- `make_move` changes at most `last_move_time`. -/
theorem make_move_keeps (a : Agent) (t : Int) (r : Nat) :
    (Agent.make_move a t r).1.board = a.board ∧
    (Agent.make_move a t r).1.current_player = a.current_player ∧
    (Agent.make_move a t r).1.game_active = a.game_active ∧
    (Agent.make_move a t r).1.last_board_state = a.last_board_state := by
  simp only [Agent.make_move]
  split
  · exact ⟨rfl, rfl, rfl, rfl⟩
  · split
    · exact ⟨rfl, rfl, rfl, rfl⟩
    · split
      · exact ⟨rfl, rfl, rfl, rfl⟩
      · exact ⟨rfl, rfl, rfl, rfl⟩

/-- The four early returns of `make_move`. -/
theorem make_move_silent (a : Agent) (t : Int) (r : Nat)
    (h : a.current_player ≠ 'X' ∨ a.game_active = 0 ∨ t - a.last_move_time < Agent.MOVE_DELAY ∨
      ∀ i, a.board i ≠ ' ') :
    Agent.make_move a t r = (a, []) := by
  simp only [Agent.make_move]
  split
  · rfl
  · split
    · rfl
    · split
      · rfl
      · rename_i h1 h2 h3
        rcases h with h | h | h | h
        · exact absurd (Or.inl h) h1
        · exact absurd (Or.inr h) h1
        · exact absurd h h2
        · exfalso
          apply h3
          rw [List.length_eq_zero, List.filter_eq_nil_iff]
          intro i _
          simpa using h i

/-- Past its early returns `make_move` publishes one MOVE for a free cell and records the time. -/
theorem make_move_publish (a : Agent) (t : Int) (r : Nat) (hturn : a.current_player = 'X')
    (hact : a.game_active ≠ 0) (hdelay : Agent.MOVE_DELAY ≤ t - a.last_move_time)
    (hempty : ∃ i, a.board i = ' ') :
    ∃ idx : Fin 9, a.board idx = ' ' ∧
      Agent.make_move a t r =
        ({ a with last_move_time := t },
          [{ topic := Agent.TOPIC_CMD,
             payload := "MOVE:".toList ++ Nat.toDigits 10 (idx.val / 3) ++ [','] ++
               Nat.toDigits 10 (idx.val % 3) }]) := by
  have h1 : ¬ (a.current_player ≠ 'X' ∨ a.game_active = 0) := by
    rintro (h | h)
    · exact h hturn
    · exact hact h
  have h2 : ¬ t - a.last_move_time < Agent.MOVE_DELAY := not_lt.mpr hdelay
  have h3 : ¬ ((List.finRange 9).filter (fun i => a.board i = ' ')).length = 0 := by
    obtain ⟨i, hi⟩ := hempty
    rw [List.length_eq_zero, List.filter_eq_nil_iff]
    intro h
    have := h i (List.mem_finRange i)
    simp [hi] at this
  simp only [Agent.make_move, if_neg h1, if_neg h2, dif_neg h3]
  refine ⟨_, ?_, rfl⟩
  have hmem := List.get_mem ((List.finRange 9).filter (fun i => a.board i = ' '))
    (r % ((List.finRange 9).filter (fun i => a.board i = ' ')).length)
    (Nat.mod_lt r (Nat.pos_of_ne_zero h3))
  rw [List.mem_filter] at hmem
  simpa using hmem.2

/-- `on_message` on a valid state payload that differs from the last seen one and fits the
buffer. -/
theorem on_message_new_state (a : Agent) (p : List Char) (t : Int) (r : Nat)
    (hvalid : Agent.validState p = true) (hnew : p ≠ a.last_board_state)
    (hfit : p.length < 20) :
    Agent.on_message a Agent.TOPIC_STATE (some p) t r =
      some (Agent.make_move { a with last_board_state := p, board := Agent.parseBoard p,
                                     current_player := Agent.parseTurn p } t r) := by
  have hfit2 : p.length + 1 ≤ Agent.LAST_BOARD_STATE_SIZE := by
    unfold Agent.LAST_BOARD_STATE_SIZE
    omega
  simp only [Agent.on_message, if_true, hvalid, if_pos hnew, if_pos hfit2, ne_eq]

/-- When `callsMakeMove` holds and the payload fits the buffer, `on_message` is the call of
`make_move` on the parsed state. -/
theorem on_message_calls (a : Agent) (topic : List Char) (p : List Char) (t : Int) (r : Nat)
    (h : Agent.callsMakeMove a topic (some p) = true) (hfit : p.length < 20) :
    Agent.on_message a topic (some p) t r =
      some (Agent.make_move { a with last_board_state := p, board := Agent.parseBoard p,
                                     current_player := Agent.parseTurn p } t r) := by
  simp only [Agent.callsMakeMove, Bool.and_eq_true, beq_iff_eq, bne_iff_ne, ne_eq] at h
  obtain ⟨⟨htopic, hvalid⟩, hnew⟩ := h
  rw [htopic]
  exact on_message_new_state a p t r hvalid hnew hfit

/-- When `callsMakeMove` fails, `on_message` returns, publishes nothing and changes at most
the game-active flag. -/
theorem on_message_not_calls (a : Agent) (topic : List Char) (payload : Option (List Char))
    (t : Int) (r : Nat) (h : Agent.callsMakeMove a topic payload = false) :
    ∃ a', Agent.on_message a topic payload t r = some (a', []) ∧
      a'.board = a.board ∧ a'.current_player = a.current_player ∧
      a'.last_move_time = a.last_move_time ∧ a'.last_board_state = a.last_board_state := by
  cases payload with
  | none => exact ⟨a, rfl, rfl, rfl, rfl, rfl⟩
  | some p =>
    simp only [Agent.on_message]
    split
    · rename_i htopic
      split
      · rename_i hvalid
        split
        · rename_i hnew
          simp [Agent.callsMakeMove, htopic, hvalid, hnew] at h
        · exact ⟨a, rfl, rfl, rfl, rfl, rfl⟩
      · exact ⟨a, rfl, rfl, rfl, rfl, rfl⟩
    · split
      · split
        · exact ⟨_, rfl, rfl, rfl, rfl, rfl⟩
        · exact ⟨a, rfl, rfl, rfl, rfl, rfl⟩
      · exact ⟨a, rfl, rfl, rfl, rfl, rfl⟩

/-- Once `game_active` is 0, `on_message` on a payload that fits the buffer returns,
publishes nothing and leaves the flag at 0. -/
theorem game_active_zero_stays (a : Agent) (topic : List Char) (payload : Option (List Char))
    (t : Int) (r : Nat) (h : a.game_active = 0)
    (hfit : ∀ p, payload = some p → p.length < 20) :
    ∃ a', Agent.on_message a topic payload t r = some (a', []) ∧ a'.game_active = 0 := by
  cases payload with
  | none => exact ⟨a, rfl, h⟩
  | some p =>
    have hfit2 : p.length + 1 ≤ Agent.LAST_BOARD_STATE_SIZE := by
      have := hfit p rfl
      unfold Agent.LAST_BOARD_STATE_SIZE
      omega
    simp only [Agent.on_message, if_pos hfit2]
    split
    · split
      · split
        · have hs := make_move_silent
            { a with last_board_state := p, board := Agent.parseBoard p,
                     current_player := Agent.parseTurn p } t r (Or.inr (Or.inl h))
          rw [hs]
          exact ⟨_, rfl, h⟩
        · exact ⟨a, rfl, h⟩
      · exact ⟨a, rfl, h⟩
    · split
      · split
        · exact ⟨_, rfl, rfl⟩
        · exact ⟨a, rfl, h⟩
      · exact ⟨a, rfl, h⟩

/-- A payload that passes the test of line 108 is `STATE:` followed by at least ten characters. -/
theorem valid_payload_shape (s : List Char) (hvalid : Agent.validState s = true) :
    ∃ (c6 c7 c8 c9 c10 c11 c12 c13 c14 c15 : Char) (rest : List Char),
      s = 'S' :: 'T' :: 'A' :: 'T' :: 'E' :: ':' :: c6 :: c7 :: c8 :: c9 :: c10 :: c11 :: c12 ::
        c13 :: c14 :: c15 :: rest := by
  simp only [Agent.validState, Bool.and_eq_true, beq_iff_eq, decide_eq_true_eq] at hvalid
  obtain ⟨hpre, hlen⟩ := hvalid
  rcases s with _ | ⟨c0, s⟩
  · simp at hlen
  rcases s with _ | ⟨c1, s⟩
  · simp at hlen
  rcases s with _ | ⟨c2, s⟩
  · simp at hlen
  rcases s with _ | ⟨c3, s⟩
  · simp at hlen
  rcases s with _ | ⟨c4, s⟩
  · simp at hlen
  rcases s with _ | ⟨c5, s⟩
  · simp at hlen
  rcases s with _ | ⟨c6, s⟩
  · simp at hlen
  rcases s with _ | ⟨c7, s⟩
  · simp at hlen
  rcases s with _ | ⟨c8, s⟩
  · simp at hlen
  rcases s with _ | ⟨c9, s⟩
  · simp at hlen
  rcases s with _ | ⟨c10, s⟩
  · simp at hlen
  rcases s with _ | ⟨c11, s⟩
  · simp at hlen
  rcases s with _ | ⟨c12, s⟩
  · simp at hlen
  rcases s with _ | ⟨c13, s⟩
  · simp at hlen
  rcases s with _ | ⟨c14, s⟩
  · simp at hlen
  rcases s with _ | ⟨c15, s⟩
  · simp at hlen
  simp only [List.take, String.toList, List.cons.injEq, and_true] at hpre
  obtain ⟨rfl, rfl, rfl, rfl, rfl, rfl⟩ := hpre
  exact ⟨c6, c7, c8, c9, c10, c11, c12, c13, c14, c15, s, rfl⟩

/-- Encoding what the agent parses from a valid C string gives its first 16 characters. -/
theorem encode_parse (s : List Char) (hnul : ∀ c ∈ s, c ≠ NUL)
    (hvalid : Agent.validState s = true) :
    Host.stateString (Agent.parseBoard s) (Agent.parseTurn s) = s.take 16 := by
  obtain ⟨c6, c7, c8, c9, c10, c11, c12, c13, c14, c15, rest, rfl⟩ :=
    valid_payload_shape s hvalid
  have hb : ∀ i, Agent.parseBoard ('S' :: 'T' :: 'A' :: 'T' :: 'E' :: ':' :: c6 :: c7 :: c8 ::
      c9 :: c10 :: c11 :: c12 :: c13 :: c14 :: c15 :: rest) i ≠ NUL := by
    intro i
    fin_cases i <;> exact hnul _ (by simp [Agent.parseBoard])
  have ht : Agent.parseTurn ('S' :: 'T' :: 'A' :: 'T' :: 'E' :: ':' :: c6 :: c7 :: c8 ::
      c9 :: c10 :: c11 :: c12 :: c13 :: c14 :: c15 :: rest) ≠ NUL :=
    hnul _ (by simp [Agent.parseTurn])
  rw [stateString_eq _ _ hb ht]
  rfl

/-! ## The claims -/

/-- C1: a MOVE command whose coordinates `sscanf` parsed as `(row, col)` is rejected when
`row` or `col` is outside `[0, 2]`, when the cell `row * 3 + col` is not a space, or when
the game is over: `processCommand` returns the host state unchanged (board, turn,
game-over flag, mode) and publishes nothing, on any topic. -/
theorem C1_move_rejected (sscanf : List Char → Option (Int × Int)) (s : Host)
    (cmd : List Char) (row col : Int) (hcmd : cmd.take 5 = "MOVE:".toList)
    (hscan : sscanf (cmd.drop 5) = some (row, col))
    (hrej : (row < 0 ∨ 2 < row ∨ col < 0 ∨ 2 < col) ∨
      (∃ i : Fin 9, (i.val : Int) = row * 3 + col ∧ s.board i ≠ ' ') ∨ s.gameOver = true) :
    Host.processCommand sscanf s cmd = (s, []) := by
  have h1 : ¬ cmd.take 5 = "RESET".toList := by rw [hcmd]; decide
  have h2 : ¬ cmd.take 5 = "MODE:".toList := by rw [hcmd]; decide
  unfold Host.processCommand
  simp only [if_neg h1, if_neg h2, if_pos hcmd, hscan]
  by_cases hr : row ≥ 0 ∧ row < 3 ∧ col ≥ 0 ∧ col < 3
  · rw [if_pos hr]
    apply makeMove_reject_exact s row col (by omega) (by omega)
    rcases hrej with h | h | h
    · omega
    · exact Or.inr (Or.inl h)
    · exact Or.inr (Or.inr h)
  · rw [if_neg hr]

/-- Witness of C1 (scenario 4): `MOVE:0,0` when cell 0 already holds an O is rejected. -/
theorem C1_move_rejected_witness :
    Host.processCommand (fun _ => some (0, 0)) Host.occupied "MOVE:0,0".toList =
      (Host.occupied, []) :=
  C1_move_rejected (fun _ => some (0, 0)) Host.occupied "MOVE:0,0".toList 0 0 (by decide) rfl
    (Or.inr (Or.inl ⟨0, by decide, by decide⟩))

/-- C2: an accepted `makeMove` (the cell `i = row * 3 + col` holds a space and the game is
not over) writes the current player's mark in cell `i` and leaves the other eight cells and
the mode unchanged; afterwards `gameOver` is true exactly when the new board has a complete
line or has no space left; and a move that fills the board without completing a line
publishes the result `DRAW` (then the state), not a win. -/
theorem C2_makeMove_accepted (s : Host) (row col : Int) (i : Fin 9)
    (hi : (i.val : Int) = row * 3 + col) (hcell : s.board i = ' ') (hgo : s.gameOver = false) :
    ((Host.makeMove s row col).1.board i = s.currentPlayer ∧
      (∀ j, j ≠ i → (Host.makeMove s row col).1.board j = s.board j) ∧
      (Host.makeMove s row col).1.gameMode = s.gameMode) ∧
    ((Host.makeMove s row col).1.gameOver = true ↔
      (∃ l ∈ winLines, lineComplete (Host.makeMove s row col).1.board l) ∨
        ∀ j, (Host.makeMove s row col).1.board j ≠ ' ') ∧
    ((¬ ∃ l ∈ winLines, lineComplete (Host.makeMove s row col).1.board l) →
      (∀ j, (Host.makeMove s row col).1.board j ≠ ' ') →
      (Host.makeMove s row col).2 =
        [{ topic := Host.mqtt_topic_result, payload := "DRAW".toList },
          Host.sendGameState (Host.makeMove s row col).1]) := by
  rw [makeMove_accept s row col i hi hcell hgo]
  by_cases hw : Host.checkWin (Function.update s.board i s.currentPlayer) = true
  · have hw2 := (checkWin_iff _).1 hw
    simp only [if_pos hw]
    refine ⟨⟨by simp, fun j hj => by simp [Function.update_noteq hj], trivial⟩, ?_, ?_⟩
    · simp only [true_iff]
      exact Or.inl hw2
    · intro hn
      exact absurd hw2 hn
  · have hw2 : ¬ ∃ l ∈ winLines, lineComplete (Function.update s.board i s.currentPlayer) l :=
      fun h => hw ((checkWin_iff _).2 h)
    simp only [if_neg hw]
    by_cases hf : Host.isBoardFull (Function.update s.board i s.currentPlayer) = true
    · have hf2 := (isBoardFull_iff _).1 hf
      simp only [if_pos hf]
      refine ⟨⟨by simp, fun j hj => by simp [Function.update_noteq hj], trivial⟩, ?_, ?_⟩
      · simp only [true_iff]
        exact Or.inr hf2
      · intro _ _
        trivial
    · have hf2 : ¬ ∀ j, Function.update s.board i s.currentPlayer j ≠ ' ' :=
        fun h => hf ((isBoardFull_iff _).2 h)
      simp only [if_neg hf]
      refine ⟨⟨by simp, fun j hj => by simp [Function.update_noteq hj], trivial⟩, ?_, ?_⟩
      · simp only [hgo, Bool.false_eq_true, false_iff]
        rintro (h | h)
        · exact hw2 h
        · exact hf2 h
      · intro _ h
        exact absurd h hf2

/-- Witness of C2 (scenario 3): O fills the last cell of `XOXOXOOX `, no line is complete,
and the host publishes `DRAW`. -/
theorem C2_makeMove_accepted_witness :
    (Host.makeMove Host.lastCell 2 2).2 =
      [{ topic := Host.mqtt_topic_result, payload := "DRAW".toList },
        { topic := Host.mqtt_topic_state, payload := "STATE:XOXOXOOXOO".toList }] ∧
    (Host.makeMove Host.lastCell 2 2).1.gameOver = true :=
  ⟨((C2_makeMove_accepted Host.lastCell 2 2 8 (by decide) (by decide) (by decide)).2.2
      (by decide) (by decide)).trans (by decide),
    (C2_makeMove_accepted Host.lastCell 2 2 8 (by decide) (by decide) (by decide)).2.1.2
      (Or.inr (by decide))⟩

/-- C3: the messages an accepted `makeMove` publishes, in order, when the turn is a
character `sprintf` prints (any byte but NUL, so X and O).  If the new board has a complete
line: the result `WIN:` followed by the mover's mark, then the state.  Otherwise, if the
new board is full: the result `DRAW`, then the state.  Otherwise the state alone.  So the
state is published exactly once and last, after at most one result message, and its
payload is the encoding of the host state after the move. -/
theorem C3_makeMove_trace (s : Host) (row col : Int) (i : Fin 9)
    (hi : (i.val : Int) = row * 3 + col) (hcell : s.board i = ' ') (hgo : s.gameOver = false)
    (hturn : s.currentPlayer ≠ NUL) :
    ((∃ l ∈ winLines, lineComplete (Host.makeMove s row col).1.board l) →
      (Host.makeMove s row col).2 =
        [{ topic := Host.mqtt_topic_result, payload := "WIN:".toList ++ [s.currentPlayer] },
          Host.sendGameState (Host.makeMove s row col).1]) ∧
    ((¬ ∃ l ∈ winLines, lineComplete (Host.makeMove s row col).1.board l) →
      (∀ j, (Host.makeMove s row col).1.board j ≠ ' ') →
      (Host.makeMove s row col).2 =
        [{ topic := Host.mqtt_topic_result, payload := "DRAW".toList },
          Host.sendGameState (Host.makeMove s row col).1]) ∧
    ((¬ ∃ l ∈ winLines, lineComplete (Host.makeMove s row col).1.board l) →
      (¬ ∀ j, (Host.makeMove s row col).1.board j ≠ ' ') →
      (Host.makeMove s row col).2 = [Host.sendGameState (Host.makeMove s row col).1]) ∧
    Host.sendGameState (Host.makeMove s row col).1 =
      { topic := Host.mqtt_topic_state,
        payload := Host.stateString (Host.makeMove s row col).1.board
          (Host.makeMove s row col).1.currentPlayer } := by
  have hwin : cstr ("WIN:".toList ++ [s.currentPlayer]) = "WIN:".toList ++ [s.currentPlayer] := by
    apply cstr_eq_self
    intro c hc
    simp only [String.toList, List.cons_append, List.nil_append, List.mem_cons,
      List.mem_singleton, List.not_mem_nil, or_false] at hc
    rcases hc with h | h | h | h | h
    · rw [h]; decide
    · rw [h]; decide
    · rw [h]; decide
    · rw [h]; decide
    · rw [h]; exact hturn
  rw [makeMove_accept s row col i hi hcell hgo]
  by_cases hw : Host.checkWin (Function.update s.board i s.currentPlayer) = true
  · have hw2 := (checkWin_iff _).1 hw
    rw [if_pos hw, hwin]
    exact ⟨fun _ => rfl, fun hn => absurd hw2 hn, fun hn => absurd hw2 hn, rfl⟩
  · have hw2 : ¬ ∃ l ∈ winLines, lineComplete (Function.update s.board i s.currentPlayer) l :=
      fun h => hw ((checkWin_iff _).2 h)
    rw [if_neg hw]
    by_cases hf : Host.isBoardFull (Function.update s.board i s.currentPlayer) = true
    · have hf2 := (isBoardFull_iff _).1 hf
      rw [if_pos hf]
      exact ⟨fun h => absurd h hw2, fun _ _ => rfl, fun _ hn => absurd hf2 hn, rfl⟩
    · have hf2 : ¬ ∀ j, Function.update s.board i s.currentPlayer j ≠ ' ' :=
        fun h => hf ((isBoardFull_iff _).2 h)
      rw [if_neg hf]
      exact ⟨fun h => absurd h hw2, fun _ h => absurd h hf2, fun _ _ => rfl, rfl⟩

/-- Witness of C3 (scenario 1): from the empty board with X to move, the move (0,0)
publishes the single message `STATE:X        O`. -/
theorem C3_makeMove_trace_witness :
    (Host.makeMove Host.fresh 0 0).2 =
      [{ topic := Host.mqtt_topic_state, payload := "STATE:X        O".toList }] :=
  ((C3_makeMove_trace Host.fresh 0 0 0 (by decide) (by decide) (by decide) (by decide)).2.2.1
    (by decide) (by decide)).trans (by decide)

/-- C4: `checkWin` returns true exactly when one of the eight lines (rows 0-1-2, 3-4-5,
6-7-8; columns 0-3-6, 1-4-7, 2-5-8; diagonals 0-4-8, 2-4-6) has three equal cells that are
not spaces.  In particular the board that holds a mark X or O on one line and spaces
elsewhere is a win, for each of the eight lines. -/
theorem C4_checkWin_lines (board : Fin 9 → Char) :
    (Host.checkWin board = true ↔ ∃ l ∈ winLines, lineComplete board l) ∧
    ∀ l ∈ winLines, ∀ m : Char, m = 'X' ∨ m = 'O' →
      Host.checkWin (fun i => if i = l.1 ∨ i = l.2.1 ∨ i = l.2.2 then m else ' ') = true := by
  refine ⟨checkWin_iff board, ?_⟩
  intro l hl m hm
  have hne : m ≠ ' ' := by
    rcases hm with h | h <;> rw [h] <;> decide
  exact (checkWin_iff _).2 ⟨l, hl, by simp [lineComplete, hne]⟩

/-- Witness of C4 (scenario 2): the board `XXX      ` is a win, and so is the board with
O on the diagonal 2-4-6. -/
theorem C4_checkWin_lines_witness :
    Host.checkWin (Host.ofCells "XXX      ".toList 'O' false 1).board = true ∧
    Host.checkWin (fun i => if i = 2 ∨ i = 4 ∨ i = 6 then 'O' else ' ') = true :=
  ⟨(C4_checkWin_lines (Host.ofCells "XXX      ".toList 'O' false 1).board).1.2
      ⟨(0, 1, 2), by decide, by decide⟩,
    (C4_checkWin_lines (fun _ => ' ')).2 (2, 4, 6) (by decide) 'O' (Or.inr rfl)⟩

/-- C5: in every host state reachable from `initBoard` by commands (MOVE, RESET, MODE or
any other text) and autonomous-move ticks, every cell is a space, an X or an O, there are
at least as many X as O, and at most one more X than O. -/
theorem C5_mark_balance (s : Host) (h : Host.Reachable s) :
    (∀ i, s.board i = ' ' ∨ s.board i = 'X' ∨ s.board i = 'O') ∧
    countMark s.board 'O' ≤ countMark s.board 'X' ∧
    countMark s.board 'X' - countMark s.board 'O' ≤ 1 := by
  obtain ⟨hcells, hbal⟩ := reachable_markInv s h
  refine ⟨hcells, ?_, ?_⟩
  · rcases hbal with ⟨_, hb⟩ | ⟨_, hb⟩ <;> split at hb <;> omega
  · rcases hbal with ⟨_, hb⟩ | ⟨_, hb⟩ <;> split at hb <;> omega

/-- Witness of C5: the state reached from the fresh board by the command `MOVE:1,1` and
then an autonomous-move tick in mode 0 (which does nothing). -/
theorem C5_mark_balance_witness :
    (∀ i, (Host.loop (Host.processCommand (fun _ => some (1, 1)) Host.fresh
        "MOVE:1,1".toList).1 5000 7).1.board i = ' ' ∨
      (Host.loop (Host.processCommand (fun _ => some (1, 1)) Host.fresh
        "MOVE:1,1".toList).1 5000 7).1.board i = 'X' ∨
      (Host.loop (Host.processCommand (fun _ => some (1, 1)) Host.fresh
        "MOVE:1,1".toList).1 5000 7).1.board i = 'O') ∧
    countMark (Host.loop (Host.processCommand (fun _ => some (1, 1)) Host.fresh
        "MOVE:1,1".toList).1 5000 7).1.board 'O' ≤
      countMark (Host.loop (Host.processCommand (fun _ => some (1, 1)) Host.fresh
        "MOVE:1,1".toList).1 5000 7).1.board 'X' ∧
    countMark (Host.loop (Host.processCommand (fun _ => some (1, 1)) Host.fresh
        "MOVE:1,1".toList).1 5000 7).1.board 'X' -
      countMark (Host.loop (Host.processCommand (fun _ => some (1, 1)) Host.fresh
        "MOVE:1,1".toList).1 5000 7).1.board 'O' ≤ 1 :=
  C5_mark_balance _
    (Host.Reachable.tick 5000 7 _
      (Host.Reachable.command (fun _ => some (1, 1)) "MOVE:1,1".toList _ Host.Reachable.setup))

/-- C6: turn consistency of `makeMove`.  After an accepted move (cell `i = row * 3 + col`
free, game not over) the mark just placed is the mover's; if the game is still in progress
the turn is the opposite mark (X becomes O, O becomes X); if the move ended the game the
turn is unchanged, the mover's mark.  A rejected move, whether `makeMove` rejects it (its
32-bit index out of range, cell occupied, game over) or `processCommand` does (coordinates
outside `[0, 2]`), leaves the turn unchanged. -/
theorem C6_turn_consistency (s : Host) (row col : Int) :
    (∀ i : Fin 9, (i.val : Int) = row * 3 + col → s.board i = ' ' → s.gameOver = false →
      (Host.makeMove s row col).1.board i = s.currentPlayer ∧
      ((Host.makeMove s row col).1.gameOver = false →
        (s.currentPlayer = 'X' → (Host.makeMove s row col).1.currentPlayer = 'O') ∧
        (s.currentPlayer = 'O' → (Host.makeMove s row col).1.currentPlayer = 'X')) ∧
      ((Host.makeMove s row col).1.gameOver = true →
        (Host.makeMove s row col).1.currentPlayer = s.currentPlayer)) ∧
    (((Host.cellIndex row col < 0 ∨ 9 ≤ Host.cellIndex row col) ∨
        (∃ i : Fin 9, (i.val : Int) = Host.cellIndex row col ∧ s.board i ≠ ' ') ∨
        s.gameOver = true) →
      (Host.makeMove s row col).1.currentPlayer = s.currentPlayer) ∧
    (∀ (sscanf : List Char → Option (Int × Int)) (cmd : List Char),
      cmd.take 5 = "MOVE:".toList → sscanf (cmd.drop 5) = some (row, col) →
      ((row < 0 ∨ 2 < row ∨ col < 0 ∨ 2 < col) ∨
        (∃ i : Fin 9, (i.val : Int) = row * 3 + col ∧ s.board i ≠ ' ') ∨ s.gameOver = true) →
      (Host.processCommand sscanf s cmd).1.currentPlayer = s.currentPlayer) := by
  refine ⟨?_, ?_, ?_⟩
  · intro i hi hcell hgo
    rw [makeMove_accept s row col i hi hcell hgo]
    split
    · exact ⟨by simp, fun h => by simp at h, fun _ => rfl⟩
    · split
      · exact ⟨by simp, fun h => by simp at h, fun _ => rfl⟩
      · refine ⟨by simp, fun _ => ⟨fun hx => by simp [hx], fun ho => by simp [ho]⟩, ?_⟩
        intro h
        simp [hgo] at h
  · intro h
    rw [makeMove_reject s row col h]
  · intro sscanf cmd hcmd hscan h
    rw [processCommand_move sscanf s cmd row col hcmd hscan]
    split
    · rw [makeMove_reject_exact s row col (by omega) (by omega)]
      rcases h with h | h | h
      · omega
      · exact Or.inr (Or.inl h)
      · exact Or.inr (Or.inr h)
    · rfl

/-- Witness of C6: on the fresh board X plays (0,0) and the turn passes to O; on
`XX OO    ` X plays (0,2), wins, and the turn stays X; on a board whose cell 0 is taken the
move (0,0) is rejected and the turn stays X. -/
theorem C6_turn_consistency_witness :
    (Host.makeMove Host.fresh 0 0).1.currentPlayer = 'O' ∧
    (Host.makeMove Host.topRow 0 2).1.currentPlayer = 'X' ∧
    (Host.makeMove Host.occupied 0 0).1.currentPlayer = 'X' :=
  ⟨(((C6_turn_consistency Host.fresh 0 0).1 0 (by decide) (by decide) (by decide)).2.1
      (by decide)).1 (by decide),
    ((C6_turn_consistency Host.topRow 0 2).1 2 (by decide) (by decide) (by decide)).2.2
      (by decide),
    (C6_turn_consistency Host.occupied 0 0).2.1 (Or.inr (Or.inl ⟨0, by decide, by decide⟩))⟩

/-- C7: for every reachable host state, the payload `sendGameState` publishes is `STATE:`
followed by the nine cells and the turn; it has length 16, starts with `STATE:`, passes the
agent's test of line 108, and the agent parses from it exactly the host's board and turn
(also through `on_message`, for an agent whose last seen state differs). -/
theorem C7_state_round_trip (s : Host) (h : Host.Reachable s) :
    (Host.sendGameState s).topic = Agent.TOPIC_STATE ∧
    (Host.sendGameState s).payload = "STATE:".toList ++ List.ofFn s.board ++ [s.currentPlayer] ∧
    (Host.sendGameState s).payload.take 6 = "STATE:".toList ∧
    (Host.sendGameState s).payload.length = 16 ∧
    Agent.validState (Host.sendGameState s).payload = true ∧
    Agent.parseBoard (Host.sendGameState s).payload = s.board ∧
    Agent.parseTurn (Host.sendGameState s).payload = s.currentPlayer ∧
    ∀ (a : Agent) (t : Int) (r : Nat), a.last_board_state ≠ (Host.sendGameState s).payload →
      ∃ (a' : Agent) (msgs : List Msg),
        Agent.on_message a Agent.TOPIC_STATE (some (Host.sendGameState s).payload) t r =
          some (a', msgs) ∧
        a'.board = s.board ∧ a'.current_player = s.currentPlayer := by
  obtain ⟨hcells, hbal⟩ := reachable_markInv s h
  have hb : ∀ i, s.board i ≠ NUL := fun i => NUL_ne_mark _ (hcells i)
  have ht : s.currentPlayer ≠ NUL := by
    rcases hbal with ⟨ht, _⟩ | ⟨ht, _⟩ <;> rw [ht] <;> decide
  have hp : (Host.sendGameState s).payload =
      "STATE:".toList ++ List.ofFn s.board ++ [s.currentPlayer] := stateString_eq _ _ hb ht
  have hvalid : Agent.validState (Host.sendGameState s).payload = true := by
    rw [hp]
    simp [Agent.validState]
  obtain ⟨hpb, hpt⟩ := parse_stateString s.board s.currentPlayer
  refine ⟨rfl, hp, ?_, ?_, hvalid, ?_, ?_, ?_⟩
  · rw [hp]; simp
  · rw [hp]; simp
  · rw [hp]; exact hpb
  · rw [hp]; exact hpt
  · intro a t r hne
    have hlen : (Host.sendGameState s).payload.length < 20 := by
      rw [hp]; simp
    obtain ⟨h1, h2, _, _⟩ := make_move_keeps
      { a with last_board_state := (Host.sendGameState s).payload,
               board := Agent.parseBoard (Host.sendGameState s).payload,
               current_player := Agent.parseTurn (Host.sendGameState s).payload } t r
    have hpb' : Agent.parseBoard (Host.sendGameState s).payload = s.board := by
      rw [hp]; exact hpb
    have hpt' : Agent.parseTurn (Host.sendGameState s).payload = s.currentPlayer := by
      rw [hp]; exact hpt
    have hm := on_message_new_state a _ t r hvalid (Ne.symm hne) hlen
    generalize Agent.make_move
      { a with last_board_state := (Host.sendGameState s).payload,
               board := Agent.parseBoard (Host.sendGameState s).payload,
               current_player := Agent.parseTurn (Host.sendGameState s).payload } t r = m
      at hm h1 h2
    obtain ⟨a', msgs⟩ := m
    exact ⟨a', msgs, hm, h1.trans hpb', h2.trans hpt'⟩

/-- Witness of C7: the state reached from the fresh board by the command `MOVE:1,1`; its
payload is `STATE:    X    O` and the agent reads back X in the centre and O to move. -/
theorem C7_state_round_trip_witness :
    (Host.sendGameState (Host.processCommand (fun _ => some (1, 1)) Host.fresh
      "MOVE:1,1".toList).1).payload = "STATE:    X    O".toList ∧
    Agent.parseTurn (Host.sendGameState (Host.processCommand (fun _ => some (1, 1)) Host.fresh
      "MOVE:1,1".toList).1).payload = 'O' ∧
    Agent.parseBoard (Host.sendGameState (Host.processCommand (fun _ => some (1, 1)) Host.fresh
      "MOVE:1,1".toList).1).payload =
        (Host.processCommand (fun _ => some (1, 1)) Host.fresh "MOVE:1,1".toList).1.board :=
  ⟨(C7_state_round_trip _ (Host.Reachable.command (fun _ => some (1, 1)) "MOVE:1,1".toList _
      Host.Reachable.setup)).2.1.trans (by decide),
    (C7_state_round_trip _ (Host.Reachable.command (fun _ => some (1, 1)) "MOVE:1,1".toList _
      Host.Reachable.setup)).2.2.2.2.2.2.1.trans (by decide),
    (C7_state_round_trip _ (Host.Reachable.command (fun _ => some (1, 1)) "MOVE:1,1".toList _
      Host.Reachable.setup)).2.2.2.2.2.1⟩

/-- C8, the claim as stated fails: the payload `STATE:X        OX` has 17 characters, starts
with `STATE:` and passes the agent's test of line 108; the agent parses the board
`X        ` and the turn O from it, and encoding these with the host's format gives the 16
characters `STATE:X        O`, not the payload. -/
theorem C8_counterexample :
    Agent.validState "STATE:X        OX".toList = true ∧
    (∀ c ∈ "STATE:X        OX".toList, c ≠ NUL) ∧
    Host.stateString (Agent.parseBoard "STATE:X        OX".toList)
      (Agent.parseTurn "STATE:X        OX".toList) = "STATE:X        O".toList ∧
    Host.stateString (Agent.parseBoard "STATE:X        OX".toList)
      (Agent.parseTurn "STATE:X        OX".toList) ≠ "STATE:X        OX".toList ∧
    (Agent.on_message Agent.startup Agent.TOPIC_STATE
      (some "STATE:X        OX".toList) 10 0).map
        (fun x => Host.stateString x.1.board x.1.current_player) =
      some "STATE:X        O".toList := by
  decide

/-- C8 as amended: for every C string `s` that passes the agent's test (it starts with
`STATE:` and has at least 16 characters), encoding the board and turn the agent parses from
`s` with the host's format gives the first 16 characters of `s`; so it gives back `s` if
and only if `s` has exactly 16 characters.  The same holds for the board and turn
`on_message` stores when `s` differs from the last seen state and fits the buffer. -/
theorem C8_round_trip_amended (s : List Char) (hnul : ∀ c ∈ s, c ≠ NUL)
    (hvalid : Agent.validState s = true) :
    Host.stateString (Agent.parseBoard s) (Agent.parseTurn s) = s.take 16 ∧
    (Host.stateString (Agent.parseBoard s) (Agent.parseTurn s) = s ↔ s.length = 16) ∧
    ∀ (a : Agent) (t : Int) (r : Nat), s ≠ a.last_board_state → s.length < 20 →
      ∃ (a' : Agent) (msgs : List Msg),
        Agent.on_message a Agent.TOPIC_STATE (some s) t r = some (a', msgs) ∧
        Host.stateString a'.board a'.current_player = s.take 16 := by
  have henc := encode_parse s hnul hvalid
  have hlen : 16 ≤ s.length := by
    simp only [Agent.validState, Bool.and_eq_true, decide_eq_true_eq] at hvalid
    exact hvalid.2
  refine ⟨henc, ?_, ?_⟩
  · rw [henc]
    constructor
    · intro h
      have := congrArg List.length h
      rw [List.length_take] at this
      omega
    · intro h
      exact List.take_of_length_le (le_of_eq h)
  · intro a t r hnew hfit
    obtain ⟨h1, h2, _, _⟩ := make_move_keeps
      { a with last_board_state := s, board := Agent.parseBoard s,
               current_player := Agent.parseTurn s } t r
    have hm := on_message_new_state a s t r hvalid hnew hfit
    generalize Agent.make_move
      { a with last_board_state := s, board := Agent.parseBoard s,
               current_player := Agent.parseTurn s } t r = m at hm h1 h2
    obtain ⟨a', msgs⟩ := m
    refine ⟨a', msgs, hm, ?_⟩
    simp only at h1 h2
    rw [h1, h2]
    exact henc

/-- Witness of C8 as amended: the 16-character payload `STATE:X        O` is given back
unchanged. -/
theorem C8_round_trip_amended_witness :
    Host.stateString (Agent.parseBoard "STATE:X        O".toList)
      (Agent.parseTurn "STATE:X        O".toList) = "STATE:X        O".toList :=
  (C8_round_trip_amended "STATE:X        O".toList (by decide) (by decide)).2.1.2 (by decide)

/-- C10, what the code does: a result payload `WIN:X`, `WIN:O` or `DRAW` clears the
game-active flag, and from then on no delivery sets it again: whatever the topic, the
payload (of at most 19 characters, so that it fits the buffer of the last seen state),
the time and the random draw, `on_message` publishes nothing and leaves the flag at 0.
In particular a new, distinct STATE does not re-arm the agent. -/
theorem C10_game_active_never_rearmed (a : Agent) (res : List Char) (t : Int) (r : Nat)
    (hres : res = "WIN:X".toList ∨ res = "WIN:O".toList ∨ res = "DRAW".toList) :
    Agent.on_message a Agent.TOPIC_RESULT (some res) t r =
      some ({ a with game_active := 0 }, []) ∧
    ∀ (topic : List Char) (payload : Option (List Char)) (t2 : Int) (r2 : Nat),
      (∀ p, payload = some p → p.length < 20) →
      ∃ a2 : Agent,
        Agent.on_message { a with game_active := 0 } topic payload t2 r2 = some (a2, []) ∧
        a2.game_active = 0 := by
  constructor
  · have hmatch : res.take 4 = "WIN:".toList ∨ res = "DRAW".toList := by
      rcases hres with h | h | h
      · exact Or.inl (by rw [h]; decide)
      · exact Or.inl (by rw [h]; decide)
      · exact Or.inr h
    have htopic : ¬ Agent.TOPIC_RESULT = Agent.TOPIC_STATE := by decide
    simp only [Agent.on_message, if_neg htopic, if_true, if_pos hmatch]
  · intro topic payload t2 r2 hfit
    exact game_active_zero_stays { a with game_active := 0 } topic payload t2 r2 rfl hfit

/-- Witness of C10: an agent that has finished a game receives `WIN:X`, then the fresh
state `STATE:         X` 50 seconds after its last move.  That state is new, its turn is X
and it has free cells, so `on_message` reaches the call of `make_move`; no message is
published and the flag stays 0. -/
theorem C10_game_active_never_rearmed_witness :
    Agent.on_message Agent.afterGame Agent.TOPIC_RESULT (some "WIN:X".toList) 60 0 =
      some ({ Agent.afterGame with game_active := 0 }, []) ∧
    Agent.callsMakeMove { Agent.afterGame with game_active := 0 } Agent.TOPIC_STATE
      (some "STATE:         X".toList) = true ∧
    Agent.parseTurn "STATE:         X".toList = 'X' ∧
    Agent.parseBoard "STATE:         X".toList 0 = ' ' ∧
    Agent.MOVE_DELAY ≤ 100 - Agent.afterGame.last_move_time ∧
    ∃ a2 : Agent,
      Agent.on_message { Agent.afterGame with game_active := 0 } Agent.TOPIC_STATE
        (some "STATE:         X".toList) 100 0 = some (a2, []) ∧
      a2.game_active = 0 :=
  ⟨(C10_game_active_never_rearmed Agent.afterGame "WIN:X".toList 60 0 (Or.inl rfl)).1,
    by decide, by decide, by decide, by decide,
    (C10_game_active_never_rearmed Agent.afterGame "WIN:X".toList 60 0 (Or.inl rfl)).2
      Agent.TOPIC_STATE (some "STATE:         X".toList) 100 0
      (fun p hp => by
        have h : p = "STATE:         X".toList := (Option.some.inj hp).symm
        rw [h]
        decide)⟩

/-! ## Further lemmas about the host and the agent -/

/-- A valid state payload starts with `STATE:` and has at least 16 characters. -/
theorem validState_iff (payload : List Char) :
    Agent.validState payload = true ↔
      payload.take 6 = "STATE:".toList ∧ 16 ≤ payload.length := by
  simp [Agent.validState]

/-- The mode test of `processCommand` (line 175) passes exactly for the characters `1`, `2`
and `3`. -/
theorem mode_digit (c : Char) :
    (((c.toNat : Int) - (('0').toNat : Int) ≥ 1) ∧ ((c.toNat : Int) - (('0').toNat : Int) ≤ 3)) ↔
      (c = '1' ∨ c = '2' ∨ c = '3') := by
  have h0 : ('0').toNat = 48 := by decide
  rw [h0]
  constructor
  · rintro ⟨h1, h2⟩
    have hc : c.toNat = 49 ∨ c.toNat = 50 ∨ c.toNat = 51 := by omega
    rcases hc with h | h | h
    · exact Or.inl (by rw [← Char.ofNat_toNat c, h])
    · exact Or.inr (Or.inl (by rw [← Char.ofNat_toNat c, h]))
    · exact Or.inr (Or.inr (by rw [← Char.ofNat_toNat c, h]))
  · rintro (h | h | h) <;> rw [h] <;> decide

/-- The MODE branch of `processCommand`. -/
theorem processCommand_mode (sscanf : List Char → Option (Int × Int)) (s : Host)
    (cmd : List Char) (hcmd : cmd.take 5 = "MODE:".toList) :
    Host.processCommand sscanf s cmd =
      if cmd.getD 5 NUL = '1' ∨ cmd.getD 5 NUL = '2' ∨ cmd.getD 5 NUL = '3' then
        (Host.initBoard
            { s with gameMode := ((cmd.getD 5 NUL).toNat : Int) - (('0').toNat : Int) },
          [{ topic := Host.mqtt_topic_result, payload := [] },
            Host.sendGameState (Host.initBoard
              { s with gameMode := ((cmd.getD 5 NUL).toNat : Int) - (('0').toNat : Int) })])
      else (s, []) := by
  have h1 : ¬ cmd.take 5 = "RESET".toList := by rw [hcmd]; decide
  simp only [Host.processCommand, if_neg h1, if_pos hcmd, mode_digit]

/-- The state text of the fresh board. -/
theorem stateString_fresh :
    Host.stateString (fun _ => ' ') 'X' = "STATE:         X".toList := by
  decide

/-- An accepted `makeMove` writes the mover's mark in the cell its 32-bit index designates
and publishes the new state as its last message. -/
theorem makeMove_accept_board_at (s : Host) (row col : Int) (i : Fin 9)
    (hi : (i.val : Int) = Host.cellIndex row col) (hcell : s.board i = ' ') (hgo : s.gameOver = false) :
    (Host.makeMove s row col).1.board = Function.update s.board i s.currentPlayer ∧
    (Host.makeMove s row col).2.getLast? = some (Host.sendGameState (Host.makeMove s row col).1) ∧
    (Host.makeMove s row col).1.gameMode = s.gameMode ∧
    (Host.makeMove s row col).1.lastAIMoveTime = s.lastAIMoveTime := by
  rw [makeMove_accept_at s row col i hi hcell hgo]
  split
  · exact ⟨rfl, rfl, rfl, rfl⟩
  · split
    · exact ⟨rfl, rfl, rfl, rfl⟩
    · exact ⟨rfl, rfl, rfl, rfl⟩

/-- An accepted `makeMove` writes the mover's mark in the cell and publishes the new state
as its last message. -/
theorem makeMove_accept_board (s : Host) (row col : Int) (i : Fin 9)
    (hi : (i.val : Int) = row * 3 + col) (hcell : s.board i = ' ') (hgo : s.gameOver = false) :
    (Host.makeMove s row col).1.board = Function.update s.board i s.currentPlayer ∧
    (Host.makeMove s row col).2.getLast? = some (Host.sendGameState (Host.makeMove s row col).1) ∧
    (Host.makeMove s row col).1.gameMode = s.gameMode ∧
    (Host.makeMove s row col).1.lastAIMoveTime = s.lastAIMoveTime := by
  rw [makeMove_accept s row col i hi hcell hgo]
  split
  · exact ⟨rfl, rfl, rfl, rfl⟩
  · split
    · exact ⟨rfl, rfl, rfl, rfl⟩
    · exact ⟨rfl, rfl, rfl, rfl⟩

/-- Membership in the list of free cells. -/
theorem mem_emptyCells (board : Fin 9 → Char) (i : Fin 9) :
    i ∈ emptyCells board ↔ board i = ' ' := by
  simp [emptyCells]

/-- Row and column of a cell index give the index back and lie in `[0, 2]`. -/
theorem row_col_of_cell (i : Fin 9) :
    ((i.val : Int) / 3) * 3 + (i.val : Int) % 3 = (i.val : Int) ∧
    0 ≤ (i.val : Int) / 3 ∧ (i.val : Int) / 3 ≤ 2 ∧
    0 ≤ (i.val : Int) % 3 ∧ (i.val : Int) % 3 ≤ 2 := by
  have := i.isLt
  omega

/-- Past its two early returns and with a free cell, `makeRandomMove` calls `makeMove` on
the row and column of the free cell number `rnd % count`. -/
theorem makeRandomMove_move (s : Host) (rnd : Nat) (hgo : s.gameOver = false)
    (hauth : ¬ ((s.gameMode = 2 ∧ s.currentPlayer ≠ 'O') ∨
      (s.gameMode = 3 ∧ ¬(s.currentPlayer = 'X' ∨ s.currentPlayer = 'O'))))
    (hk : 0 < (emptyCells s.board).length) :
    Host.makeRandomMove s rnd =
      Host.makeMove s
        ((((emptyCells s.board).get
          ⟨rnd % (emptyCells s.board).length, Nat.mod_lt rnd hk⟩).val : Int) / 3)
        ((((emptyCells s.board).get
          ⟨rnd % (emptyCells s.board).length, Nat.mod_lt rnd hk⟩).val : Int) % 3) := by
  have hgo' : ¬ s.gameOver = true := by simp [hgo]
  have hk' : ((List.finRange 9).filter (fun i => s.board i = ' ')).length > 0 := hk
  simp only [Host.makeRandomMove, if_neg hgo', if_neg hauth, dif_pos hk']
  rfl

/-- Without a free cell `makeRandomMove` does nothing. -/
theorem makeRandomMove_full (s : Host) (rnd : Nat) (hfull : ∀ i, s.board i ≠ ' ') :
    Host.makeRandomMove s rnd = (s, []) := by
  have hk : ¬ ((List.finRange 9).filter (fun i => s.board i = ' ')).length > 0 := by
    rw [gt_iff_lt, List.length_pos, ne_eq, not_not, List.filter_eq_nil_iff]
    intro i _
    simpa using hfull i
  simp only [Host.makeRandomMove, dif_neg hk, ite_self]

/-- The autonomous-move part of `loop` does nothing when the game is over, when the
cadence has not elapsed, or when the mode does not let the host play the turn. -/
theorem loop_idle (s : Host) (millis rnd : Nat)
    (h : s.gameOver = true ∨
      ¬ ((millis % 2 ^ 32 + 2 ^ 32 - s.lastAIMoveTime % 2 ^ 32) % 2 ^ 32 > 3000) ∨
      ¬ ((s.gameMode = 2 ∧ s.currentPlayer = 'O') ∨ s.gameMode = 3)) :
    Host.loop s millis rnd = (s, []) := by
  simp only [Host.loop]
  split
  · rename_i hc
    simp only [Bool.and_eq_true, Bool.not_eq_true', decide_eq_true_eq] at hc
    split
    · rename_i hm
      rcases h with h | h | h
      · rw [h] at hc
        exact absurd hc.1 (by decide)
      · exact absurd hc.2 h
      · exact absurd hm h
    · rfl
  · rfl

/-- The autonomous-move part of `loop` records the time and calls `makeRandomMove` when the
game runs, the cadence has elapsed and the mode lets the host play the turn. -/
theorem loop_fire (s : Host) (millis rnd : Nat) (hgo : s.gameOver = false)
    (helapsed : (millis % 2 ^ 32 + 2 ^ 32 - s.lastAIMoveTime % 2 ^ 32) % 2 ^ 32 > 3000)
    (hmode : (s.gameMode = 2 ∧ s.currentPlayer = 'O') ∨ s.gameMode = 3) :
    Host.loop s millis rnd =
      Host.makeRandomMove { s with lastAIMoveTime := millis % 2 ^ 32 } rnd := by
  have hc : (!s.gameOver && decide ((millis % 2 ^ 32 + 2 ^ 32 - s.lastAIMoveTime % 2 ^ 32) %
      2 ^ 32 > 3000)) = true := by
    simp only [hgo, Bool.not_false, Bool.true_and, decide_eq_true_eq]
    exact helapsed
  simp only [Host.loop, if_pos hc, if_pos hmode]

/-- `initBoard` establishes the agreement of flag and board. -/
theorem agreeInv_initBoard (s : Host) : Host.agreeInv (Host.initBoard s) := by
  have h1 : Host.checkWin (fun _ => ' ') = false := by decide
  have h2 : Host.isBoardFull (fun _ => ' ') = false := by decide
  simp only [Host.agreeInv, Host.initBoard, h1, h2]
  decide

/-- `makeMove` preserves the agreement of flag and board. -/
theorem agreeInv_makeMove (s : Host) (row col : Int) (h : Host.agreeInv s) :
    Host.agreeInv (Host.makeMove s row col).1 := by
  by_cases hidx : Host.cellIndex row col < 0 ∨ 9 ≤ Host.cellIndex row col
  · rw [makeMove_reject s row col (Or.inl hidx)]
    exact h
  · have hlt : (Host.cellIndex row col).toNat < 9 := by omega
    have hi : (((⟨(Host.cellIndex row col).toNat, hlt⟩ : Fin 9).val : Nat) : Int) =
        Host.cellIndex row col := by
      simp only
      omega
    generalize (⟨(Host.cellIndex row col).toNat, hlt⟩ : Fin 9) = i at hi
    by_cases hcell : s.board i = ' '
    · cases hgo : s.gameOver
      · rw [makeMove_accept_at s row col i hi hcell hgo]
        by_cases hw : Host.checkWin (Function.update s.board i s.currentPlayer) = true
        · rw [if_pos hw]
          simp only [Host.agreeInv, hw, true_or]
        · rw [if_neg hw]
          by_cases hf : Host.isBoardFull (Function.update s.board i s.currentPlayer) = true
          · rw [if_pos hf]
            simp only [Host.agreeInv, hf, or_true]
          · rw [if_neg hf]
            simp only [Host.agreeInv, hgo, hw, hf, or_self]
      · rw [makeMove_reject s row col (Or.inr (Or.inr hgo))]
        exact h
    · rw [makeMove_reject s row col (Or.inr (Or.inl ⟨i, hi, hcell⟩))]
      exact h

/-- `makeRandomMove` preserves the agreement of flag and board. -/
theorem agreeInv_makeRandomMove (s : Host) (rnd : Nat) (h : Host.agreeInv s) :
    Host.agreeInv (Host.makeRandomMove s rnd).1 := by
  simp only [Host.makeRandomMove]
  split
  · exact h
  · split
    · exact h
    · split
      · exact agreeInv_makeMove s _ _ h
      · exact h

/-- `processCommand` preserves the agreement of flag and board. -/
theorem agreeInv_processCommand (sscanf : List Char → Option (Int × Int)) (s : Host)
    (cmd : List Char) (h : Host.agreeInv s) :
    Host.agreeInv (Host.processCommand sscanf s cmd).1 := by
  simp only [Host.processCommand]
  split
  · exact agreeInv_initBoard s
  · split
    · split
      · exact agreeInv_initBoard _
      · exact h
    · split
      · split
        · split
          · exact agreeInv_makeMove s _ _ h
          · exact h
        · exact h
      · exact h

/-- The autonomous-move part of `loop` preserves the agreement of flag and board. -/
theorem agreeInv_loop (s : Host) (millis rnd : Nat) (h : Host.agreeInv s) :
    Host.agreeInv (Host.loop s millis rnd).1 := by
  simp only [Host.loop]
  split
  · split
    · exact agreeInv_makeRandomMove _ rnd h
    · exact h
  · exact h

/-- In every reachable host state the flag and the board agree. -/
theorem reachable_agreeInv (s : Host) (h : Host.Reachable s) : Host.agreeInv s := by
  induction h with
  | setup => exact agreeInv_initBoard _
  | command sscanf cmd s _ ih => exact agreeInv_processCommand sscanf s cmd ih
  | tick millis rnd s _ ih => exact agreeInv_loop s millis rnd ih

/-- The state `beforeWin` is reachable. -/
theorem reachable_beforeWin : Host.Reachable Host.beforeWin :=
  Host.Reachable.command _ _ _ (Host.Reachable.command _ _ _
    (Host.Reachable.command _ _ _ (Host.Reachable.command _ _ _ Host.Reachable.setup)))

/-- The state topic and the result topic differ. -/
theorem state_topic_ne_result : Host.mqtt_topic_state ≠ Host.mqtt_topic_result := by
  decide

/-- A line that is complete after a mark is written in a free cell `i`, and does not
contain `i`, was complete before. -/
theorem lineComplete_of_update (board : Fin 9 → Char) (i : Fin 9) (m : Char)
    (l : Fin 9 × Fin 9 × Fin 9) (hl : lineComplete (Function.update board i m) l)
    (h1 : l.1 ≠ i) (h2 : l.2.1 ≠ i) (h3 : l.2.2 ≠ i) : lineComplete board l := by
  unfold lineComplete at hl ⊢
  rw [Function.update_noteq h1, Function.update_noteq h2, Function.update_noteq h3] at hl
  exact hl

/-! ## The claims, continued -/

/-- C11: a payload on the state topic that does not start with `STATE:` or has fewer than
16 characters is discarded: `on_message` returns the agent state unchanged (board, turn,
last seen state, last move time, game-active flag) and publishes nothing. -/
theorem C11_malformed_state_discarded (a : Agent) (payload : List Char) (t : Int) (r : Nat)
    (hbad : payload.take 6 ≠ "STATE:".toList ∨ payload.length < 16) :
    Agent.on_message a Agent.TOPIC_STATE (some payload) t r = some (a, []) := by
  have hinvalid : ¬ Agent.validState payload = true := by
    rw [validState_iff]
    rintro ⟨h1, h2⟩
    rcases hbad with h | h
    · exact h h1
    · omega
  simp only [Agent.on_message, if_true, if_neg hinvalid]

/-- Witness of C11: the 15-character payload `STATE:X       O` (one cell short) and the
payload `BOARD:X        O` with another heading are both discarded by a fresh agent. -/
theorem C11_malformed_state_discarded_witness :
    Agent.on_message Agent.startup Agent.TOPIC_STATE (some "STATE:X       O".toList) 10 0 =
      some (Agent.startup, []) ∧
    Agent.on_message Agent.startup Agent.TOPIC_STATE (some "BOARD:X        O".toList) 10 0 =
      some (Agent.startup, []) :=
  ⟨C11_malformed_state_discarded Agent.startup "STATE:X       O".toList 10 0
      (Or.inr (by decide)),
    C11_malformed_state_discarded Agent.startup "BOARD:X        O".toList 10 0
      (Or.inl (by decide))⟩

/-- C12, the claim as stated fails: the value of the command `MODE:25` is none of the
numerals 1, 2, 3, but `processCommand` reads only the character after the colon, sets the
mode to 2, clears the board and publishes the empty result and the fresh state. -/
theorem C12_counterexample :
    "MODE:25".toList.drop 5 ≠ "1".toList ∧ "MODE:25".toList.drop 5 ≠ "2".toList ∧
    "MODE:25".toList.drop 5 ≠ "3".toList ∧
    Host.topRow.gameMode = 1 ∧ Host.topRow.board 0 = 'X' ∧
    (Host.processCommand (fun _ => none) Host.topRow "MODE:25".toList).1.gameMode = 2 ∧
    (Host.processCommand (fun _ => none) Host.topRow "MODE:25".toList).1.board 0 = ' ' ∧
    (Host.processCommand (fun _ => none) Host.topRow "MODE:25".toList).2 =
      [{ topic := Host.mqtt_topic_result, payload := [] },
        { topic := Host.mqtt_topic_state, payload := "STATE:         X".toList }] := by
  decide

/-- C12 as amended: a MODE command whose character right after `MODE:` is not `1`, `2` or
`3` (also when the command ends there) is rejected: `processCommand` returns the host state
unchanged (mode, board, turn, game-over flag) and publishes nothing.  Only that one
character is read; what follows it is ignored. -/
theorem C12_invalid_mode_amended (sscanf : List Char → Option (Int × Int)) (s : Host)
    (cmd : List Char) (hcmd : cmd.take 5 = "MODE:".toList)
    (hval : cmd.getD 5 NUL ≠ '1' ∧ cmd.getD 5 NUL ≠ '2' ∧ cmd.getD 5 NUL ≠ '3') :
    Host.processCommand sscanf s cmd = (s, []) := by
  rw [processCommand_mode sscanf s cmd hcmd, if_neg]
  rintro (h | h | h)
  · exact hval.1 h
  · exact hval.2.1 h
  · exact hval.2.2 h

/-- Witness of C12 as amended: `MODE:4`, `MODE:` and `MODE:x1` leave a running game as it
is. -/
theorem C12_invalid_mode_amended_witness :
    Host.processCommand (fun _ => none) Host.topRow "MODE:4".toList = (Host.topRow, []) ∧
    Host.processCommand (fun _ => none) Host.topRow "MODE:".toList = (Host.topRow, []) ∧
    Host.processCommand (fun _ => none) Host.topRow "MODE:x1".toList = (Host.topRow, []) :=
  ⟨C12_invalid_mode_amended _ Host.topRow "MODE:4".toList (by decide) (by decide),
    C12_invalid_mode_amended _ Host.topRow "MODE:".toList (by decide) (by decide),
    C12_invalid_mode_amended _ Host.topRow "MODE:x1".toList (by decide) (by decide)⟩

/-- C13: from every host state, a command that starts with `RESET`, and a command
`MODE:` followed by the digit 1, 2 or 3, leave the board all spaces, X to move and the
game in progress, and publish the empty result followed by the state of the fresh board,
`STATE:` + nine spaces + `X`.  RESET leaves the mode unchanged and MODE sets it to the
digit. -/
theorem C13_reinitialisation (sscanf : List Char → Option (Int × Int)) (s : Host)
    (rest : List Char) :
    Host.processCommand sscanf s ("RESET".toList ++ rest) =
      ({ s with board := fun _ => ' ', currentPlayer := 'X', gameOver := false },
        [{ topic := Host.mqtt_topic_result, payload := [] },
          { topic := Host.mqtt_topic_state, payload := "STATE:         X".toList }]) ∧
    ∀ (d : Char) (n : Int), (d = '1' ∧ n = 1) ∨ (d = '2' ∧ n = 2) ∨ (d = '3' ∧ n = 3) →
      Host.processCommand sscanf s ("MODE:".toList ++ d :: rest) =
        ({ s with board := fun _ => ' ', currentPlayer := 'X', gameOver := false,
                  gameMode := n },
          [{ topic := Host.mqtt_topic_result, payload := [] },
            { topic := Host.mqtt_topic_state, payload := "STATE:         X".toList }]) := by
  constructor
  · have h : ("RESET".toList ++ rest).take 5 = "RESET".toList := rfl
    simp only [Host.processCommand, if_pos h, Host.sendGameState, Host.initBoard,
      stateString_fresh]
  · intro d n hdn
    have hcmd : ("MODE:".toList ++ d :: rest).take 5 = "MODE:".toList := rfl
    have hd : ("MODE:".toList ++ d :: rest).getD 5 NUL = d := rfl
    have hmode : ((d.toNat : Int) - (('0').toNat : Int)) = n := by
      rcases hdn with ⟨h1, h2⟩ | ⟨h1, h2⟩ | ⟨h1, h2⟩ <;> rw [h1, h2] <;> decide
    have hdig : d = '1' ∨ d = '2' ∨ d = '3' := by
      rcases hdn with ⟨h1, _⟩ | ⟨h1, _⟩ | ⟨h1, _⟩
      · exact Or.inl h1
      · exact Or.inr (Or.inl h1)
      · exact Or.inr (Or.inr h1)
    rw [processCommand_mode sscanf s _ hcmd, hd, if_pos hdig, hmode]
    simp only [Host.sendGameState, Host.initBoard, stateString_fresh]

/-- Witness of C13: `MODE:2` received in a running game in mode 1 (scenario 6) sets the
mode to 2 and publishes the empty result and the fresh state. -/
theorem C13_reinitialisation_witness :
    Host.processCommand (fun _ => none) Host.topRow "MODE:2".toList =
      ({ Host.topRow with board := fun _ => ' ', currentPlayer := 'X', gameOver := false,
                          gameMode := 2 },
        [{ topic := Host.mqtt_topic_result, payload := [] },
          { topic := Host.mqtt_topic_state, payload := "STATE:         X".toList }]) :=
  (C13_reinitialisation (fun _ => none) Host.topRow []).2 '2' 2 (Or.inr (Or.inl ⟨rfl, rfl⟩))

/-- C14: a pass through the autonomous-move part of `loop` once the cadence of 3000 ms has
elapsed.  It returns the state unchanged and publishes nothing when the game is over,
in mode 1, and in mode 2 with X to move.  In a running game with a free cell, in mode 2
with O to move and in mode 3 with X or O to move, it plays the mover's mark in a free cell
and publishes the new state.  And whenever it changes the state or publishes, the game
was in progress and the mode was 2 with O to move, or 3. -/
theorem C14_tick_authorisation (s : Host) (millis rnd : Nat)
    (helapsed : (millis % 2 ^ 32 + 2 ^ 32 - s.lastAIMoveTime % 2 ^ 32) % 2 ^ 32 > 3000) :
    (s.gameOver = true → Host.loop s millis rnd = (s, [])) ∧
    (s.gameMode = 1 → Host.loop s millis rnd = (s, [])) ∧
    (s.gameMode = 2 → s.currentPlayer = 'X' → Host.loop s millis rnd = (s, [])) ∧
    (s.gameOver = false →
      (s.gameMode = 2 ∧ s.currentPlayer = 'O') ∨
        (s.gameMode = 3 ∧ (s.currentPlayer = 'X' ∨ s.currentPlayer = 'O')) →
      (∃ i, s.board i = ' ') →
      ∃ cell, s.board cell = ' ' ∧
        (Host.loop s millis rnd).1.board = Function.update s.board cell s.currentPlayer ∧
        (Host.loop s millis rnd).2.getLast? =
          some (Host.sendGameState (Host.loop s millis rnd).1)) ∧
    (Host.loop s millis rnd ≠ (s, []) →
      s.gameOver = false ∧ ((s.gameMode = 2 ∧ s.currentPlayer = 'O') ∨ s.gameMode = 3)) := by
  refine ⟨?_, ?_, ?_, ?_, ?_⟩
  · intro h
    exact loop_idle s millis rnd (Or.inl h)
  · intro h
    apply loop_idle s millis rnd (Or.inr (Or.inr _))
    rintro (⟨h2, _⟩ | h3) <;> omega
  · intro h hx
    apply loop_idle s millis rnd (Or.inr (Or.inr _))
    rintro (⟨_, ho⟩ | h3)
    · rw [hx] at ho
      exact absurd ho (by decide)
    · omega
  · intro hgo hauth hempty
    have hmode : (s.gameMode = 2 ∧ s.currentPlayer = 'O') ∨ s.gameMode = 3 := by
      rcases hauth with h | ⟨h, _⟩
      · exact Or.inl h
      · exact Or.inr h
    have hcode : ¬ ((s.gameMode = 2 ∧ s.currentPlayer ≠ 'O') ∨
        (s.gameMode = 3 ∧ ¬(s.currentPlayer = 'X' ∨ s.currentPlayer = 'O'))) := by
      rintro (⟨hm, ht⟩ | ⟨hm, ht⟩)
      · rcases hauth with ⟨_, h⟩ | ⟨h, _⟩
        · exact ht h
        · omega
      · rcases hauth with ⟨h, _⟩ | ⟨_, h⟩
        · omega
        · exact ht h
    have hk : 0 < (emptyCells s.board).length := by
      obtain ⟨i, hi⟩ := hempty
      exact List.length_pos_of_mem ((mem_emptyCells s.board i).2 hi)
    have hcell : s.board ((emptyCells s.board).get
        ⟨rnd % (emptyCells s.board).length, Nat.mod_lt rnd hk⟩) = ' ' :=
      (mem_emptyCells s.board _).1 (List.get_mem _ _ _)
    obtain ⟨h1, _⟩ := row_col_of_cell ((emptyCells s.board).get
        ⟨rnd % (emptyCells s.board).length, Nat.mod_lt rnd hk⟩)
    have hmove := makeRandomMove_move { s with lastAIMoveTime := millis % 2 ^ 32 } rnd
      hgo hcode hk
    obtain ⟨hb, hlast, _, _⟩ := makeMove_accept_board
      { s with lastAIMoveTime := millis % 2 ^ 32 } _ _ _ h1.symm hcell hgo
    dsimp only at hmove hb hlast
    refine ⟨_, hcell, ?_, ?_⟩
    · rw [loop_fire s millis rnd hgo helapsed hmode, hmove]
      exact hb
    · rw [loop_fire s millis rnd hgo helapsed hmode, hmove]
      exact hlast
  · intro hne
    by_contra hcon
    apply hne
    apply loop_idle
    by_cases hgo : s.gameOver = true
    · exact Or.inl hgo
    · refine Or.inr (Or.inr fun hm => hcon ⟨?_, hm⟩)
      simpa using hgo

/-- Witness of C14 (scenario 6): in mode 2, 5000 ms after the last autonomous move, the
pass with O to move plays an O in a free cell, and the pass with X to move does nothing. -/
theorem C14_tick_authorisation_witness :
    (∃ cell, Host.aiTurnO.board cell = ' ' ∧
      (Host.loop Host.aiTurnO 5000 11).1.board = Function.update Host.aiTurnO.board cell 'O' ∧
      (Host.loop Host.aiTurnO 5000 11).2.getLast? =
        some (Host.sendGameState (Host.loop Host.aiTurnO 5000 11).1)) ∧
    Host.loop Host.aiTurnX 5000 11 = (Host.aiTurnX, []) :=
  ⟨(C14_tick_authorisation Host.aiTurnO 5000 11 (by decide)).2.2.2.1 (by decide)
      (Or.inl (by decide)) ⟨1, by decide⟩,
    (C14_tick_authorisation Host.aiTurnX 5000 11 (by decide)).2.2.1 (by decide) (by decide)⟩

/-- C15: applying `makeMove(row, col)` twice in a row, in a host state whose turn is a mark
(X or O; any character but the space).  The second application returns the state the
first one left and publishes nothing: if the first move was rejected the second is
rejected for the same reason, and if it was accepted the cell now holds the mover's mark,
so the second move finds the cell occupied. -/
theorem C15_repeated_move (s : Host) (row col : Int) (hturn : s.currentPlayer ≠ ' ') :
    Host.makeMove (Host.makeMove s row col).1 row col = ((Host.makeMove s row col).1, []) := by
  by_cases hidx : Host.cellIndex row col < 0 ∨ 9 ≤ Host.cellIndex row col
  · exact makeMove_reject _ row col (Or.inl hidx)
  · have hlt : (Host.cellIndex row col).toNat < 9 := by omega
    have hi : (((⟨(Host.cellIndex row col).toNat, hlt⟩ : Fin 9).val : Nat) : Int) =
        Host.cellIndex row col := by
      simp only
      omega
    generalize (⟨(Host.cellIndex row col).toNat, hlt⟩ : Fin 9) = i at hi
    by_cases hcell : s.board i = ' '
    · cases hgo : s.gameOver
      · apply makeMove_reject
        refine Or.inr (Or.inl ⟨i, hi, ?_⟩)
        rw [(makeMove_accept_board_at s row col i hi hcell hgo).1, Function.update_same]
        exact hturn
      · rw [makeMove_reject s row col (Or.inr (Or.inr hgo))]
        exact makeMove_reject s row col (Or.inr (Or.inr hgo))
    · rw [makeMove_reject s row col (Or.inr (Or.inl ⟨i, hi, hcell⟩))]
      exact makeMove_reject s row col (Or.inr (Or.inl ⟨i, hi, hcell⟩))

/-- Witness of C15: on the fresh board the move (1,1) is accepted once; the same move
applied again changes nothing and publishes nothing. -/
theorem C15_repeated_move_witness :
    Host.makeMove (Host.makeMove Host.fresh 1 1).1 1 1 = ((Host.makeMove Host.fresh 1 1).1, []) ∧
    (Host.makeMove Host.fresh 1 1).1.board 4 = 'X' :=
  ⟨C15_repeated_move Host.fresh 1 1 (by decide), by decide⟩

/-- C16: in a running game where the mode lets the host play the turn (mode 2 with O to
move, mode 3 with X or O to move), with `count` free cells and the draw
`j = rnd % count` of `random(count)`, `makeRandomMove` takes the free cell number `j` in
board order, that cell is free, its row `index / 3` and column `index % 3` lie in `[0, 2]`
and give the index back, and the call of `makeMove` on them is accepted: the new board is
the old one with the mover's mark in that cell, and the new state is published.  Without
a free cell `makeRandomMove` does nothing. -/
theorem C16_random_move_selection (s : Host) (hgo : s.gameOver = false)
    (hauth : (s.gameMode = 2 ∧ s.currentPlayer = 'O') ∨
      (s.gameMode = 3 ∧ (s.currentPlayer = 'X' ∨ s.currentPlayer = 'O'))) :
    (∀ (rnd j : Nat) (hj : j < (emptyCells s.board).length),
      rnd % (emptyCells s.board).length = j →
      s.board ((emptyCells s.board).get ⟨j, hj⟩) = ' ' ∧
      ((((emptyCells s.board).get ⟨j, hj⟩).val : Int) / 3) * 3 +
        (((emptyCells s.board).get ⟨j, hj⟩).val : Int) % 3 =
          (((emptyCells s.board).get ⟨j, hj⟩).val : Int) ∧
      0 ≤ (((emptyCells s.board).get ⟨j, hj⟩).val : Int) / 3 ∧
      (((emptyCells s.board).get ⟨j, hj⟩).val : Int) / 3 ≤ 2 ∧
      0 ≤ (((emptyCells s.board).get ⟨j, hj⟩).val : Int) % 3 ∧
      (((emptyCells s.board).get ⟨j, hj⟩).val : Int) % 3 ≤ 2 ∧
      Host.makeRandomMove s rnd =
        Host.makeMove s ((((emptyCells s.board).get ⟨j, hj⟩).val : Int) / 3)
          ((((emptyCells s.board).get ⟨j, hj⟩).val : Int) % 3) ∧
      (Host.makeRandomMove s rnd).1.board =
        Function.update s.board ((emptyCells s.board).get ⟨j, hj⟩) s.currentPlayer ∧
      (Host.makeRandomMove s rnd).2.getLast? =
        some (Host.sendGameState (Host.makeRandomMove s rnd).1)) ∧
    ((∀ i, s.board i ≠ ' ') → ∀ rnd, Host.makeRandomMove s rnd = (s, [])) := by
  have hcode : ¬ ((s.gameMode = 2 ∧ s.currentPlayer ≠ 'O') ∨
      (s.gameMode = 3 ∧ ¬(s.currentPlayer = 'X' ∨ s.currentPlayer = 'O'))) := by
    rintro (⟨hm, ht⟩ | ⟨hm, ht⟩)
    · rcases hauth with ⟨_, h⟩ | ⟨h, _⟩
      · exact ht h
      · omega
    · rcases hauth with ⟨h, _⟩ | ⟨_, h⟩
      · omega
      · exact ht h
  refine ⟨?_, fun hfull rnd => makeRandomMove_full s rnd hfull⟩
  intro rnd j hj hdraw
  subst hdraw
  have hk : 0 < (emptyCells s.board).length := Nat.lt_of_le_of_lt (Nat.zero_le _) hj
  have hmove := makeRandomMove_move s rnd hgo hcode hk
  have hmem : (emptyCells s.board).get ⟨rnd % (emptyCells s.board).length, hj⟩ ∈
      emptyCells s.board := List.get_mem _ _ _
  generalize (emptyCells s.board).get ⟨rnd % (emptyCells s.board).length, hj⟩ = cell
    at hmove hmem ⊢
  have hcell : s.board cell = ' ' := (mem_emptyCells s.board cell).1 hmem
  obtain ⟨h1, h2, h3, h4, h5⟩ := row_col_of_cell cell
  obtain ⟨hb, hlast, _, _⟩ := makeMove_accept_board s _ _ cell h1.symm hcell hgo
  refine ⟨hcell, h1, h2, h3, h4, h5, hmove, ?_, ?_⟩
  · rw [hmove]
    exact hb
  · rw [hmove]
    exact hlast

/-- Witness of C16: mode 2, board `X        `, O to move, draw 11: there are 8 free cells,
`11 % 8 = 3`, the free cell number 3 is cell 4, and `makeRandomMove` plays O there. -/
theorem C16_random_move_selection_witness :
    (Host.makeRandomMove Host.aiTurnO 11).1.board =
      Function.update Host.aiTurnO.board ((emptyCells Host.aiTurnO.board).get ⟨3, by decide⟩) 'O' ∧
    (emptyCells Host.aiTurnO.board).get ⟨3, by decide⟩ = 4 :=
  ⟨((C16_random_move_selection Host.aiTurnO (by decide) (Or.inl (by decide))).1 11 3
      (by decide) (by decide)).2.2.2.2.2.2.2.1,
    by decide⟩

/-- C17: `make_move` publishes if and only if the turn is X, the game-active flag is set,
at least `MOVE_DELAY` (3) seconds have elapsed since the last published move, and the
board has a free cell.  When it publishes, the single message is `MOVE:row,col` on the
command topic with `row` and `col` in `[0, 2]` and the cell `row * 3 + col` free, and the
last-move time becomes the current time; when it does not, the agent state is unchanged. -/
theorem C17_make_move (a : Agent) (t : Int) (r : Nat) :
    ((Agent.make_move a t r).2 ≠ [] ↔
      (a.current_player = 'X' ∧ a.game_active ≠ 0 ∧
        Agent.MOVE_DELAY ≤ t - a.last_move_time ∧ ∃ i, a.board i = ' ')) ∧
    ((a.current_player = 'X' ∧ a.game_active ≠ 0 ∧
        Agent.MOVE_DELAY ≤ t - a.last_move_time ∧ ∃ i, a.board i = ' ') →
      ∃ (row col : Nat) (h : row * 3 + col < 9), row ≤ 2 ∧ col ≤ 2 ∧
        a.board ⟨row * 3 + col, h⟩ = ' ' ∧
        Agent.make_move a t r =
          ({ a with last_move_time := t },
            [{ topic := Agent.TOPIC_CMD,
               payload := "MOVE:".toList ++ Nat.toDigits 10 row ++ [','] ++
                 Nat.toDigits 10 col }])) ∧
    (¬ (a.current_player = 'X' ∧ a.game_active ≠ 0 ∧
        Agent.MOVE_DELAY ≤ t - a.last_move_time ∧ ∃ i, a.board i = ' ') →
      Agent.make_move a t r = (a, [])) := by
  have hpub : (a.current_player = 'X' ∧ a.game_active ≠ 0 ∧
      Agent.MOVE_DELAY ≤ t - a.last_move_time ∧ ∃ i, a.board i = ' ') →
      ∃ (row col : Nat) (h : row * 3 + col < 9), row ≤ 2 ∧ col ≤ 2 ∧
        a.board ⟨row * 3 + col, h⟩ = ' ' ∧
        Agent.make_move a t r =
          ({ a with last_move_time := t },
            [{ topic := Agent.TOPIC_CMD,
               payload := "MOVE:".toList ++ Nat.toDigits 10 row ++ [','] ++
                 Nat.toDigits 10 col }]) := by
    rintro ⟨hturn, hact, hdelay, hempty⟩
    obtain ⟨idx, hidx, hmove⟩ := make_move_publish a t r hturn hact hdelay hempty
    have hlt := idx.isLt
    have hrc : idx.val / 3 * 3 + idx.val % 3 = idx.val := by omega
    refine ⟨idx.val / 3, idx.val % 3, by omega, by omega, by omega, ?_, hmove⟩
    have hfin : (⟨idx.val / 3 * 3 + idx.val % 3, by omega⟩ : Fin 9) = idx := Fin.ext hrc
    rw [hfin]
    exact hidx
  have hsilent : ¬ (a.current_player = 'X' ∧ a.game_active ≠ 0 ∧
      Agent.MOVE_DELAY ≤ t - a.last_move_time ∧ ∃ i, a.board i = ' ') →
      Agent.make_move a t r = (a, []) := by
    intro hn
    apply make_move_silent
    by_contra hcon
    apply hn
    simp only [not_or, not_not, not_lt, not_forall] at hcon
    exact hcon
  refine ⟨⟨?_, ?_⟩, hpub, hsilent⟩
  · intro hne
    by_contra hn
    rw [hsilent hn] at hne
    exact hne rfl
  · intro hc
    obtain ⟨row, col, _, _, _, _, hmove⟩ := hpub hc
    rw [hmove]
    simp

/-- Witness of C17: a fresh agent (empty board, X to move, active, last move at time 0)
at time 10 with the draw 4 publishes `MOVE:1,1`; at time 2 it publishes nothing. -/
theorem C17_make_move_witness :
    (Agent.make_move Agent.startup 10 4).2 ≠ [] ∧
    (Agent.make_move Agent.startup 10 4).2 =
      [{ topic := Agent.TOPIC_CMD, payload := "MOVE:1,1".toList }] ∧
    Agent.make_move Agent.startup 2 4 = (Agent.startup, []) :=
  ⟨(C17_make_move Agent.startup 10 4).1.2 ⟨by decide, by decide, by decide, 0, by decide⟩,
    by decide,
    (C17_make_move Agent.startup 2 4).2.2 (by decide)⟩

/-- C18, the claim as stated fails: `makeMove` checks the index `row * 3 + col`, not `row`
and `col`.  On the fresh board `makeMove(-1, 3)` has index 0 and `makeMove(0, 5)` has
index 5; both are accepted: the cell receives an X and the new state is published.  So is
`makeMove(1431655766, 0)`, whose index wraps to 2 in 32-bit arithmetic. -/
theorem C18_counterexample :
    (Host.makeMove Host.fresh (-1) 3).1.board 0 = 'X' ∧
    (Host.makeMove Host.fresh (-1) 3).2 =
      [{ topic := Host.mqtt_topic_state, payload := "STATE:X        O".toList }] ∧
    (Host.makeMove Host.fresh 0 5).1.board 5 = 'X' ∧
    (Host.makeMove Host.fresh 0 5).1.currentPlayer = 'O' ∧
    (Host.makeMove Host.fresh 0 5).2 =
      [{ topic := Host.mqtt_topic_state, payload := "STATE:     X   O".toList }] ∧
    Host.cellIndex 1431655766 0 = 2 ∧
    (Host.makeMove Host.fresh 1431655766 0).1.board 2 = 'X' ∧
    (Host.makeMove Host.fresh 1431655766 0).2 =
      [{ topic := Host.mqtt_topic_state, payload := "STATE:  X      O".toList }] := by
  decide

/-- C18 as amended: `makeMove` taken on its own rejects every pair `(row, col)` whose index
`row * 3 + col`, as the 32-bit `int` arithmetic of line 218 computes it, is outside
`[0, 8]`, leaving the host state unchanged and publishing nothing; this covers every pair
whose exact index fits 32 bits and is outside `[0, 8]`.  A pair with `row` or `col`
outside `[0, 2]` whose computed index lies in `[0, 8]` is handled as the cell of that
index.  The check of `row` and `col` against `[0, 2]` is the command handler's:
`processCommand` rejects every such pair before it calls `makeMove`. -/
theorem C18_makeMove_index_amended (s : Host) (row col : Int) :
    ((Host.cellIndex row col < 0 ∨ 9 ≤ Host.cellIndex row col) →
      Host.makeMove s row col = (s, [])) ∧
    (-2147483648 ≤ row * 3 + col → row * 3 + col ≤ 2147483647 →
      (row * 3 + col < 0 ∨ 9 ≤ row * 3 + col) → Host.makeMove s row col = (s, [])) ∧
    (∀ i : Fin 9, (i.val : Int) = Host.cellIndex row col → s.board i = ' ' →
      s.gameOver = false →
      (Host.makeMove s row col).1.board = Function.update s.board i s.currentPlayer ∧
      (Host.makeMove s row col).2.getLast? =
        some (Host.sendGameState (Host.makeMove s row col).1)) ∧
    (∀ (sscanf : List Char → Option (Int × Int)) (cmd : List Char),
      cmd.take 5 = "MOVE:".toList → sscanf (cmd.drop 5) = some (row, col) →
      (row < 0 ∨ 2 < row ∨ col < 0 ∨ 2 < col) →
      Host.processCommand sscanf s cmd = (s, [])) := by
  refine ⟨fun h => makeMove_reject s row col (Or.inl h), ?_, ?_, ?_⟩
  · intro h1 h2 h
    exact makeMove_reject_exact s row col h1 h2 (Or.inl h)
  · intro i hi hcell hgo
    obtain ⟨h1, h2, _, _⟩ := makeMove_accept_board_at s row col i hi hcell hgo
    exact ⟨h1, h2⟩
  · intro sscanf cmd hcmd hscan hout
    rw [processCommand_move sscanf s cmd row col hcmd hscan, if_neg]
    omega

/-- Witness of C18 as amended: on the fresh board `makeMove(3, 0)` (index 9) and
`makeMove(0, -1)` (index -1) are rejected, and the command `MOVE:0,5` is rejected by
`processCommand`. -/
theorem C18_makeMove_index_amended_witness :
    Host.makeMove Host.fresh 3 0 = (Host.fresh, []) ∧
    Host.makeMove Host.fresh 0 (-1) = (Host.fresh, []) ∧
    Host.processCommand (fun _ => some (0, 5)) Host.fresh "MOVE:0,5".toList =
      (Host.fresh, []) :=
  ⟨(C18_makeMove_index_amended Host.fresh 3 0).1 (by decide),
    (C18_makeMove_index_amended Host.fresh 0 (-1)).2.1 (by decide) (by decide) (by decide),
    (C18_makeMove_index_amended Host.fresh 0 5).2.2.2 (fun _ => some (0, 5))
      "MOVE:0,5".toList (by decide) rfl (by decide)⟩

/-- C19: in every reachable host state the game-over flag is set if and only if the board
has a complete line (`checkWin`) or no free cell (`isBoardFull`); so a game in progress has
no complete line and has a free cell. -/
theorem C19_status_board_agreement (s : Host) (h : Host.Reachable s) :
    (s.gameOver = true ↔ (Host.checkWin s.board = true ∨ Host.isBoardFull s.board = true)) ∧
    (s.gameOver = true ↔
      ((∃ l ∈ winLines, lineComplete s.board l) ∨ ∀ i, s.board i ≠ ' ')) ∧
    (s.gameOver = false →
      (¬ ∃ l ∈ winLines, lineComplete s.board l) ∧ ∃ i, s.board i = ' ') := by
  have hagree := reachable_agreeInv s h
  unfold Host.agreeInv at hagree
  refine ⟨hagree, ?_, ?_⟩
  · rw [hagree, checkWin_iff, isBoardFull_iff]
  · intro hgo
    rw [checkWin_iff, isBoardFull_iff, hgo] at hagree
    have hnot : ¬ ((∃ l ∈ winLines, lineComplete s.board l) ∨ ∀ i, s.board i ≠ ' ') :=
      fun hc => absurd (hagree.2 hc) (by decide)
    refine ⟨fun hl => hnot (Or.inl hl), ?_⟩
    by_contra hne
    apply hnot
    refine Or.inr fun i hi => hne ⟨i, hi⟩

/-- Witness of C19: the game `XX OO    ` reached by four MOVE commands is in progress, has
no complete line and has a free cell. -/
theorem C19_status_board_agreement_witness :
    (¬ ∃ l ∈ winLines, lineComplete Host.beforeWin.board l) ∧
    ∃ i, Host.beforeWin.board i = ' ' :=
  (C19_status_board_agreement Host.beforeWin reachable_beforeWin).2.2 (by decide)

/-- C20: in a reachable host state, when an accepted move at cell `i` makes `makeMove`
publish the result `WIN:` followed by the mark `m`, then `m` is the mover's mark (X or O),
the new board has a line through `i` whose three cells hold `m`, and every complete line
of the new board passes through `i` and holds `m`: there is no complete line of the other
mark. -/
theorem C20_winner_attribution (s : Host) (hreach : Host.Reachable s) (row col : Int)
    (i : Fin 9) (hi : (i.val : Int) = row * 3 + col) (hcell : s.board i = ' ')
    (hgo : s.gameOver = false) (m : Char)
    (hpub : ({ topic := Host.mqtt_topic_result, payload := "WIN:".toList ++ [m] } : Msg) ∈
      (Host.makeMove s row col).2) :
    m = s.currentPlayer ∧ (m = 'X' ∨ m = 'O') ∧
    (∃ l ∈ winLines, (l.1 = i ∨ l.2.1 = i ∨ l.2.2 = i) ∧
      (Host.makeMove s row col).1.board l.1 = m ∧
      (Host.makeMove s row col).1.board l.2.1 = m ∧
      (Host.makeMove s row col).1.board l.2.2 = m) ∧
    (∀ l ∈ winLines, lineComplete (Host.makeMove s row col).1.board l →
      (l.1 = i ∨ l.2.1 = i ∨ l.2.2 = i) ∧
      (Host.makeMove s row col).1.board l.1 = m ∧
      (Host.makeMove s row col).1.board l.2.1 = m ∧
      (Host.makeMove s row col).1.board l.2.2 = m) := by
  obtain ⟨_, hbal⟩ := reachable_markInv s hreach
  have hmark : s.currentPlayer = 'X' ∨ s.currentPlayer = 'O' := by
    rcases hbal with ⟨ht, _⟩ | ⟨ht, _⟩
    · exact Or.inl ht
    · exact Or.inr ht
  have hnul : s.currentPlayer ≠ NUL := by
    rcases hmark with ht | ht <;> rw [ht] <;> decide
  have hwinmsg : cstr ("WIN:".toList ++ [s.currentPlayer]) =
      "WIN:".toList ++ [s.currentPlayer] := by
    apply cstr_eq_self
    intro c hc
    simp only [String.toList, List.cons_append, List.nil_append, List.mem_cons,
      List.mem_singleton, List.not_mem_nil, or_false] at hc
    rcases hc with h | h | h | h | h
    · rw [h]; decide
    · rw [h]; decide
    · rw [h]; decide
    · rw [h]; decide
    · rw [h]; exact hnul
  have hnoline : ¬ ∃ l ∈ winLines, lineComplete s.board l := by
    have hagree := reachable_agreeInv s hreach
    unfold Host.agreeInv at hagree
    intro hl
    have := hagree.2 (Or.inl ((checkWin_iff _).2 hl))
    rw [hgo] at this
    exact absurd this (by decide)
  obtain ⟨hboard, _, _, _⟩ := makeMove_accept_board s row col i hi hcell hgo
  have hm_win : m = s.currentPlayer ∧
      Host.checkWin (Function.update s.board i s.currentPlayer) = true := by
    rw [makeMove_accept s row col i hi hcell hgo] at hpub
    by_cases hw : Host.checkWin (Function.update s.board i s.currentPlayer) = true
    · rw [if_pos hw, hwinmsg] at hpub
      simp only [List.mem_cons, List.mem_singleton, List.not_mem_nil, or_false] at hpub
      rcases hpub with h | h
      · have hp := congrArg Msg.payload h
        simp only [String.toList, List.cons_append, List.nil_append, List.cons.injEq,
          and_true, true_and] at hp
        exact ⟨hp, hw⟩
      · have ht := congrArg Msg.topic h
        exact absurd ht.symm state_topic_ne_result
    · rw [if_neg hw] at hpub
      by_cases hf : Host.isBoardFull (Function.update s.board i s.currentPlayer) = true
      · rw [if_pos hf] at hpub
        simp only [List.mem_cons, List.mem_singleton, List.not_mem_nil, or_false] at hpub
        rcases hpub with h | h
        · have hp := congrArg Msg.payload h
          simp only [String.toList, List.cons_append, List.nil_append, List.cons.injEq] at hp
          exact absurd hp.1 (by decide)
        · have ht := congrArg Msg.topic h
          exact absurd ht.symm state_topic_ne_result
      · rw [if_neg hf] at hpub
        simp only [List.mem_singleton] at hpub
        have ht := congrArg Msg.topic hpub
        exact absurd ht.symm state_topic_ne_result
  obtain ⟨hm, hw⟩ := hm_win
  have hall : ∀ l ∈ winLines, lineComplete (Function.update s.board i s.currentPlayer) l →
      (l.1 = i ∨ l.2.1 = i ∨ l.2.2 = i) ∧
      Function.update s.board i s.currentPlayer l.1 = m ∧
      Function.update s.board i s.currentPlayer l.2.1 = m ∧
      Function.update s.board i s.currentPlayer l.2.2 = m := by
    intro l hl hcomp
    have hthrough : l.1 = i ∨ l.2.1 = i ∨ l.2.2 = i := by
      by_contra hcon
      simp only [not_or] at hcon
      exact hnoline ⟨l, hl, lineComplete_of_update _ _ _ _ hcomp hcon.1 hcon.2.1 hcon.2.2⟩
    obtain ⟨_, h12, h23⟩ := hcomp
    have hsame : Function.update s.board i s.currentPlayer i = m := by
      rw [Function.update_same, hm]
    refine ⟨hthrough, ?_⟩
    rcases hthrough with h | h | h
    · rw [h] at h12 ⊢
      rw [hsame] at h12
      exact ⟨hsame, h12.symm, by rw [← h23, ← h12]⟩
    · rw [h] at h12 h23 ⊢
      rw [hsame] at h12 h23
      exact ⟨h12, hsame, h23.symm⟩
    · rw [h] at h23 ⊢
      rw [hsame] at h23
      exact ⟨by rw [h12, h23], h23, hsame⟩
  rw [hboard]
  refine ⟨hm, by rw [hm]; exact hmark, ?_, hall⟩
  obtain ⟨l, hl, hcomp⟩ := (checkWin_iff _).1 hw
  exact ⟨l, hl, hall l hl hcomp⟩

/-- Witness of C20: in the reachable game `XX OO    ` X plays (0,2); `makeMove` publishes
`WIN:X`, and the top row through cell 2 holds three X. -/
theorem C20_winner_attribution_witness :
    'X' = Host.beforeWin.currentPlayer ∧
    ∃ l ∈ winLines, (l.1 = 2 ∨ l.2.1 = 2 ∨ l.2.2 = 2) ∧
      (Host.makeMove Host.beforeWin 0 2).1.board l.1 = 'X' ∧
      (Host.makeMove Host.beforeWin 0 2).1.board l.2.1 = 'X' ∧
      (Host.makeMove Host.beforeWin 0 2).1.board l.2.2 = 'X' :=
  ⟨(C20_winner_attribution Host.beforeWin reachable_beforeWin 0 2 2 (by decide) (by decide)
      (by decide) 'X' (by decide)).1,
    (C20_winner_attribution Host.beforeWin reachable_beforeWin 0 2 2 (by decide) (by decide)
      (by decide) 'X' (by decide)).2.2.1⟩
